import Mathlib

set_option autoImplicit false

/-!
Verification of the schedule-search core of src/spec.go (package cron):
the bitset schedule representation, the day-of-month/day-of-week matcher
`dayMatches`, and the forward/backward searches `Next` and `Prev`.

The embedding models Go `time.Time` as a civil timestamp in the proleptic
Gregorian calendar at nanosecond precision, in a single fixed-offset
(DST-free) location, so the `Location` conversions at the entry and exit of
`Next`/`Prev` are identities and `Add`/`AddDate`/`Truncate` act on civil
fields with Go's normalization rules (overflowing days roll into the
following month, exactly as `time.Date` normalizes).

`Next` and `Prev` are goto-structured loops in the source; they are embedded
as explicit small-step transition functions (`nextStep`, `prevStep`) driven
by a fuel-indexed driver `runSearch`.  One step is one loop iteration or one
fall-through from a field's loop to the next field's loop; `.wrap` is the
`WRAP` label.  Fuel exhaustion is a distinguished result, so termination is
a provable property rather than an assumption.
-/

/-- A civil timestamp (proleptic Gregorian, nanosecond precision) modelling
Go `time.Time` in a fixed-offset location. -/
structure GoTime where
  year : Int
  month : Nat
  day : Nat
  hour : Nat
  minute : Nat
  second : Nat
  nsec : Nat
deriving DecidableEq

/-- Go's leap-year rule (`isLeap` in time package semantics). -/
def isLeap (y : Int) : Bool :=
  y % 4 == 0 && (y % 100 != 0 || y % 400 == 0)

/-- Length of month `m` in a year whose leapness is `L`. -/
def monthLen (L : Bool) (m : Nat) : Nat :=
  match m with
  | 1 => 31 | 2 => if L then 29 else 28
  | 3 => 31 | 4 => 30 | 5 => 31 | 6 => 30
  | 7 => 31 | 8 => 31 | 9 => 30 | 10 => 31
  | 11 => 30 | 12 => 31
  | _ => 30

/-- Number of days in month `m` of year `y`. -/
def daysIn (y : Int) (m : Nat) : Nat := monthLen (isLeap y) m

/-- Well-formedness of a civil timestamp: exactly the values representable
by a Go `time.Time` read back through `Date()`/`Clock()`/`Nanosecond()`. -/
def GoTime.Valid (t : GoTime) : Prop :=
  1 ≤ t.month ∧ t.month ≤ 12 ∧ 1 ≤ t.day ∧ t.day ≤ daysIn t.year t.month ∧
  t.hour ≤ 23 ∧ t.minute ≤ 59 ∧ t.second ≤ 59 ∧ t.nsec ≤ 999999999

instance (t : GoTime) : Decidable t.Valid := by
  unfold GoTime.Valid; infer_instance

/-- Chronological order on civil timestamps (lexicographic on the fields). -/
def GoTime.le (a b : GoTime) : Prop :=
  a.year < b.year ∨ (a.year = b.year ∧
    (a.month < b.month ∨ (a.month = b.month ∧
      (a.day < b.day ∨ (a.day = b.day ∧
        (a.hour < b.hour ∨ (a.hour = b.hour ∧
          (a.minute < b.minute ∨ (a.minute = b.minute ∧
            (a.second < b.second ∨ (a.second = b.second ∧
              a.nsec ≤ b.nsec)))))))))))

def GoTime.lt (a b : GoTime) : Prop := a.le b ∧ a ≠ b

instance (a b : GoTime) : Decidable (a.le b) := by
  unfold GoTime.le; infer_instance

instance (a b : GoTime) : Decidable (a.lt b) := by
  unfold GoTime.lt; infer_instance

/-- Go `t.AddDate(0, 0, 1)`: one calendar day forward. -/
def addDate1D (t : GoTime) : GoTime :=
  if t.day < daysIn t.year t.month then { t with day := t.day + 1 }
  else if t.month < 12 then { t with month := t.month + 1, day := 1 }
  else { t with year := t.year + 1, month := 1, day := 1 }

/-- Go `t.AddDate(0, 0, -1)`: one calendar day backward. -/
def subDate1D (t : GoTime) : GoTime :=
  if 1 < t.day then { t with day := t.day - 1 }
  else if 1 < t.month then
    { t with month := t.month - 1, day := daysIn t.year (t.month - 1) }
  else { t with year := t.year - 1, month := 12, day := 31 }

/-- Go `t.AddDate(0, 1, 0)`: one month forward, normalizing an overflowing
day into the following month (Jan 31 + 1 month = Mar 2/3), as `time.Date`
does.  For a valid input the overflow is at most 3 days, so a single
roll-over step is exact. -/
def addDate1M (t : GoTime) : GoTime :=
  let y := if t.month = 12 then t.year + 1 else t.year
  let m := if t.month = 12 then 1 else t.month + 1
  if t.day ≤ daysIn y m then { t with year := y, month := m }
  else { t with year := y, month := m + 1, day := t.day - daysIn y m }

/-- Go `t.AddDate(0, -1, 0)`: one month backward with the same
normalization (Mar 31 - 1 month = Mar 2/3). -/
def subDate1M (t : GoTime) : GoTime :=
  let y := if t.month = 1 then t.year - 1 else t.year
  let m := if t.month = 1 then 12 else t.month - 1
  if t.day ≤ daysIn y m then { t with year := y, month := m }
  else { t with year := y, month := m + 1, day := t.day - daysIn y m }

/-- Go `t.AddDate(1, 0, 0)`: one year forward (Feb 29 normalizes to Mar 1). -/
def addDate1Y (t : GoTime) : GoTime :=
  let y := t.year + 1
  if t.day ≤ daysIn y t.month then { t with year := y }
  else { t with year := y, month := t.month + 1, day := t.day - daysIn y t.month }

/-- Go `t.AddDate(-1, 0, 0)`: one year backward (Feb 29 normalizes to Mar 1). -/
def subDate1Y (t : GoTime) : GoTime :=
  let y := t.year - 1
  if t.day ≤ daysIn y t.month then { t with year := y }
  else { t with year := y, month := t.month + 1, day := t.day - daysIn y t.month }

/-- Go `t.Add(time.Hour)` in a DST-free location. -/
def add1Hour (t : GoTime) : GoTime :=
  if t.hour < 23 then { t with hour := t.hour + 1 }
  else { addDate1D t with hour := 0 }

/-- Go `t.Add(-time.Hour)` in a DST-free location. -/
def sub1Hour (t : GoTime) : GoTime :=
  if 0 < t.hour then { t with hour := t.hour - 1 }
  else { subDate1D t with hour := 23 }

def add1Minute (t : GoTime) : GoTime :=
  if t.minute < 59 then { t with minute := t.minute + 1 }
  else { add1Hour t with minute := 0 }

def sub1Minute (t : GoTime) : GoTime :=
  if 0 < t.minute then { t with minute := t.minute - 1 }
  else { sub1Hour t with minute := 59 }

def add1Second (t : GoTime) : GoTime :=
  if t.second < 59 then { t with second := t.second + 1 }
  else { add1Minute t with second := 0 }

def sub1Second (t : GoTime) : GoTime :=
  if 0 < t.second then { t with second := t.second - 1 }
  else { sub1Minute t with second := 59 }

/-- Go `t.Add(k * time.Hour)` for a small nonnegative count. -/
def addHours : Nat → GoTime → GoTime
  | 0, t => t
  | k + 1, t => addHours k (add1Hour t)

/-- Go `t.Add(-k * time.Hour)` for a small nonnegative count. -/
def subHours : Nat → GoTime → GoTime
  | 0, t => t
  | k + 1, t => subHours k (sub1Hour t)

/-- Go `t.Weekday()` with 0 = Sunday, computed by Sakamoto's congruence on
the date fields (equal to Go's absolute-time computation on every proleptic
Gregorian date). -/
def weekday (t : GoTime) : Nat :=
  let y : Int := if t.month < 3 then t.year - 1 else t.year
  let c : Int :=
    match t.month with
    | 1 => 0 | 2 => 3 | 3 => 2 | 4 => 5 | 5 => 0 | 6 => 3
    | 7 => 5 | 8 => 1 | 9 => 4 | 10 => 6 | 11 => 2 | _ => 4
  ((y + y / 4 - y / 100 + y / 400 + c + t.day) % 7).toNat

/-- `maxBits` of src/spec.go (line 64): the restriction-flag bit position. -/
def maxBits : Nat := 160

/-- `minYear` of src/spec.go (line 66). -/
def minYear : Int := 1970

/-- `maxYear` of src/spec.go (line 67). -/
def maxYear : Int := 2099

/-- `SpecSchedule` of src/spec.go (lines 11-16).  Each field is the
`big.Int` bit mask produced by the parser; the parser only ever sets bits,
so a nonnegative integer models it faithfully.  The `Location` field is
omitted: in this single-zone model the `In` conversions at lines 86-93,
199, 218-225 and 374 are identities. -/
structure SpecSchedule where
  Second : Nat
  Minute : Nat
  Hour : Nat
  Dom : Nat
  Month : Nat
  Dow : Nat
  Year : Nat
deriving DecidableEq

/-- `dayMatches` of src/spec.go (lines 379-388). -/
def dayMatches (s : SpecSchedule) (t : GoTime) : Bool :=
  let domMatch : Bool := s.Dom.testBit t.day
  let dowMatch : Bool := s.Dow.testBit (weekday t)
  if s.Dom.testBit maxBits || s.Dow.testBit maxBits then domMatch && dowMatch
  else domMatch || dowMatch

/-- Outcome of a fuel-indexed search: the zero-time `NO_MATCH` sentinel, a
found instant, or fuel exhaustion (used only to state termination). -/
inductive SearchResult where
  | noMatch : SearchResult
  | found : GoTime → SearchResult
  | outOfFuel : SearchResult
deriving DecidableEq

/-- Fuel-indexed driver for a small-step search. -/
def runSearch {σ : Type} (step : σ → σ ⊕ SearchResult) : Nat → σ → SearchResult
  | 0, _ => .outOfFuel
  | f + 1, st =>
    match step st with
    | .inl st1 => runSearch step f st1
    | .inr r => r

/-- Control position inside `Next`: `wrap` is the `WRAP` label (line 104),
the others are the per-field loops. -/
inductive NextPhase where
  | wrap | year | month | day | hour | minute | second
deriving DecidableEq

structure NextState where
  phase : NextPhase
  added : Bool
  t : GoTime
deriving DecidableEq

/-- The reset `time.Date(y, mo, d, h, mi, 0, 0, loc)` used by the
first-advance truncations. -/
def goDate (y : Int) (mo d h mi : Nat) : GoTime :=
  ⟨y, mo, d, h, mi, 0, 0⟩

/-- The DST normalization applied after each one-day step in the day loops
of `Next` (lines 150-156) and `Prev` (lines 303-309): if the hour is no
longer midnight, add `24 - hour` hours when `hour > 12`, else subtract
`hour` hours. -/
def dstAdjust (t : GoTime) : GoTime :=
  if t.hour ≠ 0 then
    (if t.hour > 12 then addHours (24 - t.hour) t else subHours t.hour t)
  else t

/-- The day-loop advance of `Next` (lines 147-156): one day forward, then
the DST normalization. -/
def nextDayAdvance (t : GoTime) : GoTime := dstAdjust (addDate1D t)

/-- The day-loop advance of `Prev` (lines 300-309): one day backward, then
the DST normalization. -/
def prevDayAdvance (t : GoTime) : GoTime := dstAdjust (subDate1D t)

/-- One step of `Next` (src/spec.go lines 104-197).  A step is one loop
iteration (snap-on-first-advance, increment, wraparound check) or one
fall-through to the next field's loop; `goto WRAP` moves to `.wrap`. -/
def nextStep (s : SpecSchedule) (yl : Int) (st : NextState) : NextState ⊕ SearchResult :=
  let t := st.t
  match st.phase with
  | .wrap =>
    if t.year > yl ∨ t.year > maxYear then .inr .noMatch
    else .inl ⟨.year, st.added, t⟩
  | .year =>
    if t.year < minYear ∨ s.Year.testBit (t.year - minYear).toNat = false then
      let t1 := if st.added = false then goDate t.year 1 1 0 0 else t
      let t2 := addDate1Y t1
      if t2.year > yl ∨ t2.year > maxYear then .inr .noMatch
      else .inl ⟨.year, true, t2⟩
    else .inl ⟨.month, st.added, t⟩
  | .month =>
    if s.Month.testBit t.month = false then
      let t1 := if st.added = false then goDate t.year t.month 1 0 0 else t
      let t2 := addDate1M t1
      if t2.month = 1 then .inl ⟨.wrap, true, t2⟩
      else .inl ⟨.month, true, t2⟩
    else .inl ⟨.day, st.added, t⟩
  | .day =>
    if dayMatches s t = false then
      let t1 := if st.added = false then goDate t.year t.month t.day 0 0 else t
      let t2 := nextDayAdvance t1
      if t2.day = 1 then .inl ⟨.wrap, true, t2⟩
      else .inl ⟨.day, true, t2⟩
    else .inl ⟨.hour, st.added, t⟩
  | .hour =>
    if s.Hour.testBit t.hour = false then
      let t1 := if st.added = false then goDate t.year t.month t.day t.hour 0 else t
      let t2 := add1Hour t1
      if t2.hour = 0 then .inl ⟨.wrap, true, t2⟩
      else .inl ⟨.hour, true, t2⟩
    else .inl ⟨.minute, st.added, t⟩
  | .minute =>
    if s.Minute.testBit t.minute = false then
      let t1 := if st.added = false then { t with second := 0, nsec := 0 } else t
      let t2 := add1Minute t1
      if t2.minute = 0 then .inl ⟨.wrap, true, t2⟩
      else .inl ⟨.minute, true, t2⟩
    else .inl ⟨.second, st.added, t⟩
  | .second =>
    if s.Second.testBit t.second = false then
      let t1 := if st.added = false then { t with nsec := 0 } else t
      let t2 := add1Second t1
      if t2.second = 0 then .inl ⟨.wrap, true, t2⟩
      else .inl ⟨.second, true, t2⟩
    else .inr (.found t)

/-- Fuel budget: strictly more than the step count of any run (proved for
`Next` and `Prev` below). -/
def FUEL : Nat := 2000000000

/-- The pre-search adjustment of `Next` (line 96):
`t.Add(-1*time.Second - time.Duration(t.Nanosecond())*time.Nanosecond)`. -/
def nextInit (t : GoTime) : GoTime :=
  sub1Second { t with nsec := 0 }

/-- `Next` of src/spec.go (lines 72-200) in the single-zone model. -/
def nextGo (s : SpecSchedule) (t : GoTime) : SearchResult :=
  let t1 := nextInit t
  runSearch (nextStep s (t1.year + 5)) FUEL ⟨.wrap, false, t1⟩

/-- Control position inside `Prev`: `wrap` is the `WRAP` label (line 242). -/
inductive PrevPhase where
  | wrap | year | month | day | hour | minute | second
deriving DecidableEq

/-- State of `Prev`: control position, the `added` flag, the five
`addYear`..`addMinute` repositioning flags (lines 236-240), and the cursor. -/
structure PrevState where
  phase : PrevPhase
  added : Bool
  aY : Bool
  aM : Bool
  aD : Bool
  aH : Bool
  aMin : Bool
  t : GoTime
deriving DecidableEq

/-- The `addYear` repositioning correction of `Prev` (lines 258-262):
`t.AddDate(1,0,0)` then `t.AddDate(0,-1,0)`. -/
def corrY (t : GoTime) : GoTime := subDate1M (addDate1Y t)

/-- The `addMonth` correction (lines 283-287): `+1` month, `-1` day. -/
def corrM (t : GoTime) : GoTime := subDate1D (addDate1M t)

/-- The `addDay` correction (lines 316-320): `+1` day, `-1` hour. -/
def corrD (t : GoTime) : GoTime := sub1Hour (addDate1D t)

/-- The `addHour` correction (lines 336-340): `+1` hour, `-1` minute. -/
def corrH (t : GoTime) : GoTime := sub1Minute (add1Hour t)

/-- The `addMinute` correction (lines 356-360): `+1` minute, `-1` second. -/
def corrMin (t : GoTime) : GoTime := sub1Second (add1Minute t)

/-- One step of `Prev` (src/spec.go lines 242-374).  A step is one loop
iteration or one fall-through; a fall-through out of a loop applies that
field's pending repositioning correction, exactly as the `if addX` blocks
that follow each loop in the source. -/
def prevStep (s : SpecSchedule) (yl : Int) (st : PrevState) : PrevState ⊕ SearchResult :=
  let t := st.t
  match st.phase with
  | .wrap =>
    if t.year < yl ∨ t.year < minYear then .inr .noMatch
    else .inl ⟨.year, st.added, st.aY, st.aM, st.aD, st.aH, st.aMin, t⟩
  | .year =>
    if t.year < minYear ∨ s.Year.testBit (t.year - minYear).toNat = false then
      let t1 := if st.added = false then goDate t.year 1 1 0 0 else t
      let t2 := subDate1Y t1
      if t2.year < yl ∨ t2.year < minYear then .inr .noMatch
      else .inl ⟨.year, true, true, st.aM, st.aD, st.aH, st.aMin, t2⟩
    else
      let t1 := if st.aY then corrY t else t
      .inl ⟨.month, st.added, false, st.aM, st.aD, st.aH, st.aMin, t1⟩
  | .month =>
    if s.Month.testBit t.month = false then
      let t1 := if st.added = false then goDate t.year t.month 1 0 0 else t
      let t2 := subDate1M t1
      if t2.month = 1 then .inl ⟨.wrap, true, st.aY, true, st.aD, st.aH, st.aMin, t2⟩
      else .inl ⟨.month, true, st.aY, true, st.aD, st.aH, st.aMin, t2⟩
    else
      let t1 := if st.aM then corrM t else t
      .inl ⟨.day, st.added, st.aY, false, st.aD, st.aH, st.aMin, t1⟩
  | .day =>
    if dayMatches s t = false then
      let t1 := if st.added = false then goDate t.year t.month t.day 0 0 else t
      let t2 := prevDayAdvance t1
      if t2.day = 1 then .inl ⟨.wrap, true, st.aY, st.aM, true, st.aH, st.aMin, t2⟩
      else .inl ⟨.day, true, st.aY, st.aM, true, st.aH, st.aMin, t2⟩
    else
      let t1 := if st.aD then corrD t else t
      .inl ⟨.hour, st.added, st.aY, st.aM, false, st.aH, st.aMin, t1⟩
  | .hour =>
    if s.Hour.testBit t.hour = false then
      let t1 := if st.added = false then goDate t.year t.month t.day t.hour 0 else t
      let t2 := sub1Hour t1
      if t2.hour = 0 then .inl ⟨.wrap, true, st.aY, st.aM, st.aD, true, st.aMin, t2⟩
      else .inl ⟨.hour, true, st.aY, st.aM, st.aD, true, st.aMin, t2⟩
    else
      let t1 := if st.aH then corrH t else t
      .inl ⟨.minute, st.added, st.aY, st.aM, st.aD, false, st.aMin, t1⟩
  | .minute =>
    if s.Minute.testBit t.minute = false then
      let t1 := if st.added = false then { t with second := 0, nsec := 0 } else t
      let t2 := sub1Minute t1
      if t2.minute = 0 then .inl ⟨.wrap, true, st.aY, st.aM, st.aD, st.aH, true, t2⟩
      else .inl ⟨.minute, true, st.aY, st.aM, st.aD, st.aH, true, t2⟩
    else
      let t1 := if st.aMin then corrMin t else t
      .inl ⟨.second, st.added, st.aY, st.aM, st.aD, st.aH, false, t1⟩
  | .second =>
    if s.Second.testBit t.second = false then
      let t1 := if st.added = false then { t with nsec := 0 } else t
      let t2 := sub1Second t1
      if t2.second = 0 then .inl ⟨.wrap, true, st.aY, st.aM, st.aD, st.aH, st.aMin, t2⟩
      else .inl ⟨.second, true, st.aY, st.aM, st.aD, st.aH, st.aMin, t2⟩
    else .inr (.found t)

/-- `Prev` of src/spec.go (lines 204-375) in the single-zone model.  Note
that the rounding step mirroring line 96 is commented out in the source
(line 228), so the cursor starts at the input instant itself. -/
def prevGo (s : SpecSchedule) (t : GoTime) : SearchResult :=
  runSearch (prevStep s (t.year - 5)) FUEL ⟨.wrap, false, false, false, false, false, false, t⟩

/-- Cumulative days before month `m` in a year of leapness `L`. -/
def daysBeforeMonth (L : Bool) (m : Nat) : Nat :=
  match m with
  | 1 => 0 | 2 => 31 | 3 => if L then 60 else 59
  | 4 => if L then 91 else 90 | 5 => if L then 121 else 120
  | 6 => if L then 152 else 151 | 7 => if L then 182 else 181
  | 8 => if L then 213 else 212 | 9 => if L then 244 else 243
  | 10 => if L then 274 else 273 | 11 => if L then 305 else 304
  | 12 => if L then 335 else 334
  | _ => 400

/-- Leap years strictly before year `y` (relative count; only differences
matter). -/
def leapsBefore (y : Int) : Int :=
  (y - 1) / 4 - (y - 1) / 100 + (y - 1) / 400

/-- Linear day index of a date, strictly monotone in calendar order. -/
def dayNumber (y : Int) (m d : Nat) : Int :=
  365 * y + leapsBefore y + (daysBeforeMonth (isLeap y) m : Int) + (d : Int)

/-- Absolute second index of a civil timestamp (nanoseconds ignored). -/
def secs (t : GoTime) : Int :=
  dayNumber t.year t.month t.day * 86400 +
    (t.hour : Int) * 3600 + (t.minute : Int) * 60 + (t.second : Int)

/-- A timestamp satisfying every field constraint of a schedule, evaluated
in the schedule's effective timezone: second, minute, hour and month bits
set, `dayMatches` true, and the year bit set (src/spec.go uses index
`year - minYear` into the `Year` mask, defined only from 1970 on). -/
def matchesAll (s : SpecSchedule) (t : GoTime) : Prop :=
  s.Second.testBit t.second = true ∧
  s.Minute.testBit t.minute = true ∧
  s.Hour.testBit t.hour = true ∧
  s.Month.testBit t.month = true ∧
  dayMatches s t = true ∧
  minYear ≤ t.year ∧
  s.Year.testBit (t.year - minYear).toNat = true

instance (s : SpecSchedule) (t : GoTime) : Decidable (matchesAll s t) := by
  unfold matchesAll; infer_instance

/-- The all-wildcard schedule: every bit of every field's numeric range set
(as the parser produces for `* * * * * * *`). -/
def wcMask (lo hi : Nat) : Nat := (2 ^ (hi + 1 - lo) - 1) * 2 ^ lo

def wcSched : SpecSchedule :=
  ⟨wcMask 0 59, wcMask 0 59, wcMask 0 23, wcMask 1 31, wcMask 1 12, wcMask 0 6,
    wcMask 0 129⟩

/-- Phase weight for the `Next` termination measure: transitions fall
through phases in decreasing weight, and every loop iteration strictly
advances the cursor. -/
def NextPhase.weight : NextPhase → Nat
  | .wrap => 6 | .year => 5 | .month => 4 | .day => 3
  | .hour => 2 | .minute => 1 | .second => 0

/-- Termination measure for `Next`: weighted seconds remaining until an
unreachable ceiling two years past the lookahead horizon. -/
def nextMeasure (yl : Int) (st : NextState) : Nat :=
  7 * (secs (goDate (yl + 2) 1 1 0 0) - secs st.t).toNat + st.phase.weight

def PrevPhase.weight : PrevPhase → Nat
  | .wrap => 6 | .year => 5 | .month => 4 | .day => 3
  | .hour => 2 | .minute => 1 | .second => 0

/-- The pending repositioning corrections of `Prev`, applied in the order
the code would apply them (year, month, day, hour, minute). -/
def applyCorrs (aY aM aD aH aMin : Bool) (t : GoTime) : GoTime :=
  (if aMin then corrMin else id)
    ((if aH then corrH else id)
      ((if aD then corrD else id)
        ((if aM then corrM else id)
          ((if aY then corrY else id) t))))

/-- Slack added to the potential while a year or month correction is
pending; it strictly exceeds the 11-hour discount of `prevBadWeight`. -/
def prevPads (aY aM : Bool) : Int :=
  (if aY then 43200 else 0) + (if aM then 43200 else 0)

/-- A `Prev` state whose pending day correction cannot fire before the day
loop runs again on the same (mismatched) date. -/
def prevBad (s : SpecSchedule) (st : PrevState) : Bool :=
  st.aD && !(dayMatches s st.t)

/-- Potential of a `Prev` state: the instant all pending corrections would
yield, plus pending slack, minus an 11-hour discount in `prevBad` states. -/
def prevPot (s : SpecSchedule) (st : PrevState) : Int :=
  secs (applyCorrs st.aY st.aM st.aD st.aH st.aMin st.t) +
    prevPads st.aY st.aM - (if prevBad s st then 39600 else 0)

/-- Lower bound of the potential over all reachable `Prev` states. -/
def prevFloor (yl : Int) : Int := secs (goDate (yl - 1) 1 1 0 0) - 86400

/-- Termination measure for `Prev`. -/
def prevMeasure (s : SpecSchedule) (yl : Int) (st : PrevState) : Nat :=
  7 * (prevPot s st - prevFloor yl).toNat + st.phase.weight

/-- Year verified: in range, within the horizon, with its year bit set. -/
def yearOK (s : SpecSchedule) (yl : Int) (t : GoTime) : Prop :=
  minYear ≤ t.year ∧ t.year ≤ yl ∧ t.year ≤ maxYear ∧
    s.Year.testBit (t.year - minYear).toNat = true

/-- Date fully verified: year, month bit, and day rule. -/
def dateVerified (s : SpecSchedule) (yl : Int) (t : GoTime) : Prop :=
  yearOK s yl t ∧ s.Month.testBit t.month = true ∧ dayMatches s t = true

/-- Reachability invariant of the `Next` state machine.  In the coarse
phases, a non-midnight cursor can only have come from a minute- or
second-level wraparound on an already fully verified date. -/
def nextInv (s : SpecSchedule) (yl : Int) (st : NextState) : Prop :=
  st.t.Valid ∧
  match st.phase with
  | .wrap => st.added = true → st.t.hour ≠ 0 → dateVerified s yl st.t
  | .year => (st.added = true → st.t.hour ≠ 0 → dateVerified s yl st.t) ∧
      st.t.year ≤ yl ∧ st.t.year ≤ maxYear
  | .month => (st.added = true → st.t.hour ≠ 0 → dateVerified s yl st.t) ∧
      yearOK s yl st.t
  | .day => (st.added = true → st.t.hour ≠ 0 → dateVerified s yl st.t) ∧
      yearOK s yl st.t ∧ s.Month.testBit st.t.month = true
  | .hour => dateVerified s yl st.t
  | .minute => dateVerified s yl st.t ∧ s.Hour.testBit st.t.hour = true
  | .second => dateVerified s yl st.t ∧ s.Hour.testBit st.t.hour = true ∧
      s.Minute.testBit st.t.minute = true

/-- Floor invariant of the `Prev` machine: the cursor never drops below
Jan 1 of `yearLimit - 1`, because each loop detects its wraparound at the
latest one unit into that year. -/
def prevFloorInv (yl : Int) (st : PrevState) : Prop :=
  yl - 1 ≤ st.t.year ∧
  match st.phase with
  | .wrap => True
  | .year => yl ≤ st.t.year
  | .month => st.t.year ≤ yl - 1 → 2 ≤ st.t.month
  | .day => st.t.year ≤ yl - 1 → ¬(st.t.month = 1 ∧ st.t.day = 1)
  | .hour => st.t.year ≤ yl - 1 →
      ¬(st.t.month = 1 ∧ st.t.day = 1 ∧ st.t.hour = 0)
  | .minute => st.t.year ≤ yl - 1 →
      ¬(st.t.month = 1 ∧ st.t.day = 1 ∧ st.t.hour = 0 ∧ st.t.minute = 0)
  | .second => st.t.year ≤ yl - 1 →
      ¬(st.t.month = 1 ∧ st.t.day = 1 ∧ st.t.hour = 0 ∧ st.t.minute = 0 ∧
        st.t.second = 0)

/-- Flag invariant of the `Prev` machine: a pending correction flag is
always consumed by the fall-through out of its own loop, so it can never
still be pending once control is past that loop's phase. -/
def prevFlagInv (st : PrevState) : Prop :=
  match st.phase with
  | .wrap => st.aY = false
  | .year => True
  | .month => st.aY = false
  | .day => st.aY = false ∧ st.aM = false
  | .hour => st.aY = false ∧ st.aM = false ∧ st.aD = false
  | .minute => st.aY = false ∧ st.aM = false ∧ st.aD = false ∧ st.aH = false
  | .second => st.aY = false ∧ st.aM = false ∧ st.aD = false ∧
      st.aH = false ∧ st.aMin = false

/-- Full invariant of the `Prev` machine. -/
def prevInv (yl : Int) (st : PrevState) : Prop :=
  st.t.Valid ∧ prevFloorInv yl st ∧ prevFlagInv st

/-- Schedule restricted to year 2030 only, all other fields wildcard
(spec section 8, concrete scenario 4). -/
def y2030Sched : SpecSchedule :=
  ⟨wcMask 0 59, wcMask 0 59, wcMask 0 23, wcMask 1 31, wcMask 1 12, wcMask 0 6,
    2 ^ 60⟩

/-- Schedule with year restricted to 2030 and month to December, all other
fields wildcard. -/
def c3Sched : SpecSchedule :=
  ⟨wcMask 0 59, wcMask 0 59, wcMask 0 23, wcMask 1 31, 2 ^ 12, wcMask 0 6,
    2 ^ 60⟩

/-- Schedule with second mask 1 shl 30 and minute mask 1 shl 5, all other
fields wildcard. -/
def slipSched : SpecSchedule :=
  ⟨2 ^ 30, 2 ^ 5, wcMask 0 23, wcMask 1 31, wcMask 1 12, wcMask 0 6,
    wcMask 0 129⟩

theorem add1Hour_hour (u : GoTime) (h : u.hour ≤ 23) :
    (add1Hour u).hour = (u.hour + 1) % 24 := by
  unfold add1Hour
  split
  · simp only []
    omega
  · show (0 : Nat) = (u.hour + 1) % 24
    omega

theorem add1Hour_hour_le (u : GoTime) : (add1Hour u).hour ≤ 23 := by
  unfold add1Hour
  split
  · simp only []; omega
  · show (0 : Nat) ≤ 23
    decide

theorem addHours_hour (k : Nat) (u : GoTime) (h : u.hour ≤ 23) :
    (addHours k u).hour = (u.hour + k) % 24 := by
  induction k generalizing u with
  | zero => simp [addHours]; omega
  | succ n ih =>
    rw [addHours, ih (add1Hour u) (add1Hour_hour_le u), add1Hour_hour u h]
    omega

theorem sub1Hour_hour_pos (u : GoTime) (h : 0 < u.hour) :
    (sub1Hour u).hour = u.hour - 1 := by
  unfold sub1Hour
  rw [if_pos h]

theorem subHours_hour (k : Nat) (u : GoTime) (h : k ≤ u.hour) :
    (subHours k u).hour = u.hour - k := by
  induction k generalizing u with
  | zero => simp [subHours]
  | succ n ih =>
    rw [subHours, ih (sub1Hour u) (by rw [sub1Hour_hour_pos u (by omega)]; omega),
      sub1Hour_hour_pos u (by omega)]
    omega

/-- C5: dayMatches computes domMatch AND dowMatch when the restriction-flag
bit 160 is set on either the day-of-month or the day-of-week mask, and
domMatch OR dowMatch otherwise, where domMatch tests the day-of-month bit
of the date's day and dowMatch the day-of-week bit of the date's weekday
with 0 = Sunday (witnessed by 2024-06-16, a Sunday, having weekday 0). -/
theorem C5_dayMatches_rule :
    (∀ (s : SpecSchedule) (t : GoTime),
      dayMatches s t =
        if s.Dom.testBit 160 || s.Dow.testBit 160
        then s.Dom.testBit t.day && s.Dow.testBit (weekday t)
        else s.Dom.testBit t.day || s.Dow.testBit (weekday t)) ∧
    weekday ⟨2024, 6, 16, 0, 0, 0, 0⟩ = 0 := by
  constructor
  · intro s t
    rfl
  · decide

/-- C7: in the day step of both Next and Prev, after the one-day step, if
the resulting local hour is not 0, the algorithm adds (24 - hour) hours
when hour is greater than 12 and subtracts hour hours otherwise, before
re-testing the day; in the DST-free model this lands the cursor back at
local midnight. -/
theorem C7_day_step_dst_normalization :
    (∀ t : GoTime, nextDayAdvance t = dstAdjust (addDate1D t) ∧
        prevDayAdvance t = dstAdjust (subDate1D t)) ∧
    (∀ u : GoTime, u.hour ≤ 23 → u.hour ≠ 0 →
      dstAdjust u = (if u.hour > 12 then addHours (24 - u.hour) u
          else subHours u.hour u) ∧
        (dstAdjust u).hour = 0) := by
  refine ⟨fun t => ⟨rfl, rfl⟩, fun u hle hne => ⟨by rw [dstAdjust, if_pos hne], ?_⟩⟩
  rw [dstAdjust, if_pos hne]
  split
  · rw [addHours_hour _ _ hle]
    omega
  · rw [subHours_hour _ _ (le_refl u.hour)]
    omega

theorem C7_day_step_dst_normalization_witness :
    (23 : Nat) ≤ 23 ∧ (23 : Nat) ≠ 0 ∧
    dstAdjust ⟨2024, 6, 15, 23, 7, 8, 9⟩ =
      (if (23 : Nat) > 12
        then addHours (24 - 23) ⟨2024, 6, 15, 23, 7, 8, 9⟩
        else subHours 23 ⟨2024, 6, 15, 23, 7, 8, 9⟩) ∧
    (dstAdjust ⟨2024, 6, 15, 23, 7, 8, 9⟩).hour = 0 := by
  refine ⟨by decide, by decide, ?_, ?_⟩
  · exact (C7_day_step_dst_normalization.2 ⟨2024, 6, 15, 23, 7, 8, 9⟩
      (by decide) (by decide)).1
  · exact (C7_day_step_dst_normalization.2 ⟨2024, 6, 15, 23, 7, 8, 9⟩
      (by decide) (by decide)).2

/-- C1 fails on the code: Next starts by subtracting one second (line 96),
so for the all-wildcard schedule the returned instant is the input minus
one second, strictly before the input, even though the input itself
satisfies every field constraint. -/
theorem C1_next_returns_earlier_instant :
    nextGo wcSched ⟨2024, 6, 15, 12, 30, 30, 0⟩ =
      .found ⟨2024, 6, 15, 12, 30, 29, 0⟩ ∧
    GoTime.lt ⟨2024, 6, 15, 12, 30, 29, 0⟩ ⟨2024, 6, 15, 12, 30, 30, 0⟩ ∧
    matchesAll wcSched ⟨2024, 6, 15, 12, 30, 30, 0⟩ := by
  refine ⟨by decide, by decide, by decide⟩

/-- C2 fails as stated: Prev does not round the cursor before searching
(the rounding of line 228 is commented out), so an input that itself
matches the schedule is returned unchanged, not an instant strictly
before it. -/
theorem C2_prev_not_strictly_before :
    prevGo wcSched ⟨2024, 6, 15, 12, 30, 30, 0⟩ =
      .found ⟨2024, 6, 15, 12, 30, 30, 0⟩ ∧
    ¬ GoTime.lt ⟨2024, 6, 15, 12, 30, 30, 0⟩ ⟨2024, 6, 15, 12, 30, 30, 0⟩ := by
  refine ⟨by decide, by decide⟩

/-- C3 fails on the code: with year mask 2030 and month mask December,
Prev(2030-01-15T10:00:00) slides from January 2030 into December 2029
without the month loop detecting the backward year crossing (the check
fires on reaching January, one step early), so the result 2029-12-31 has
its year bit unset in the schedule's year mask. -/
theorem C3_prev_escapes_year_mask :
    prevGo c3Sched ⟨2030, 1, 15, 10, 0, 0, 0⟩ =
      .found ⟨2029, 12, 31, 0, 0, 0, 0⟩ ∧
    c3Sched.Year.testBit ((2029 : Int) - minYear).toNat = false := by
  refine ⟨by decide, by decide⟩

theorem isLeap_iff (y : Int) :
    isLeap y = true ↔ (y % 4 = 0 ∧ (y % 100 ≠ 0 ∨ y % 400 = 0)) := by
  simp [isLeap, Bool.and_eq_true, Bool.or_eq_true, beq_iff_eq, bne_iff_ne]

theorem leapsBefore_succ (y : Int) :
    leapsBefore (y + 1) = leapsBefore y + (if isLeap y = true then 1 else 0) := by
  have h := isLeap_iff y
  unfold leapsBefore
  have hy : y + 1 - 1 = y := by ring
  rw [hy]
  split
  case isTrue hL =>
    obtain ⟨h4, h100⟩ := h.mp hL
    rcases h100 with h100 | h400
    · omega
    · omega
  case isFalse hL =>
    have h2 : ¬ (y % 4 = 0 ∧ (y % 100 ≠ 0 ∨ y % 400 = 0)) := fun hc => hL (h.mpr hc)
    omega

theorem daysIn_one (y : Int) : daysIn y 1 = 31 := by
  rw [daysIn]; cases isLeap y <;> rfl

theorem daysIn_twelve (y : Int) : daysIn y 12 = 31 := by
  rw [daysIn]; cases isLeap y <;> rfl

theorem daysIn_bounds (y : Int) (m : Nat) (h1 : 1 ≤ m) (h2 : m ≤ 12) :
    28 ≤ daysIn y m ∧ daysIn y m ≤ 31 := by
  rw [daysIn]
  interval_cases m <;> cases isLeap y <;> simp [monthLen]

theorem daysBeforeMonth_succ (L : Bool) (m : Nat) (h1 : 1 ≤ m) (h2 : m ≤ 11) :
    daysBeforeMonth L (m + 1) = daysBeforeMonth L m + monthLen L m := by
  interval_cases m <;> cases L <;> rfl

theorem daysBeforeMonth_last (L : Bool) :
    daysBeforeMonth L 12 + monthLen L 12 = 365 + (if L = true then 1 else 0) := by
  cases L <;> rfl

theorem daysBeforeMonth_le (L : Bool) (m : Nat) (h1 : 1 ≤ m) (h2 : m ≤ 12) :
    daysBeforeMonth L m + monthLen L m ≤ 365 + (if L = true then 1 else 0) ∧
      daysBeforeMonth L m ≥ 0 := by
  interval_cases m <;> cases L <;> simp [daysBeforeMonth, monthLen]

theorem addDate1D_time (t : GoTime) :
    (addDate1D t).hour = t.hour ∧ (addDate1D t).minute = t.minute ∧
      (addDate1D t).second = t.second ∧ (addDate1D t).nsec = t.nsec := by
  unfold addDate1D
  split
  · exact ⟨rfl, rfl, rfl, rfl⟩
  split <;> exact ⟨rfl, rfl, rfl, rfl⟩

theorem subDate1D_time (t : GoTime) :
    (subDate1D t).hour = t.hour ∧ (subDate1D t).minute = t.minute ∧
      (subDate1D t).second = t.second ∧ (subDate1D t).nsec = t.nsec := by
  unfold subDate1D
  split
  · exact ⟨rfl, rfl, rfl, rfl⟩
  split <;> exact ⟨rfl, rfl, rfl, rfl⟩

theorem dayNumber_next (t : GoTime) (hV : t.Valid) :
    dayNumber (addDate1D t).year (addDate1D t).month (addDate1D t).day =
      dayNumber t.year t.month t.day + 1 := by
  obtain ⟨h1, h2, h3, h4, _⟩ := hV
  rw [daysIn] at h4
  unfold addDate1D
  split
  case isTrue h =>
    simp only [dayNumber]
    push_cast
    ring
  case isFalse h =>
    rw [daysIn] at h
    split
    case isTrue hm =>
      have hstep := daysBeforeMonth_succ (isLeap t.year) t.month h1 (by omega)
      simp only [dayNumber]
      push_cast [hstep]
      omega
    case isFalse hm =>
      have hm12 : t.month = 12 := by omega
      rw [hm12] at h4 h
      have hlen : monthLen (isLeap t.year) 12 = 31 := by cases isLeap t.year <;> rfl
      rw [hlen] at h4 h
      have hd : t.day = 31 := by omega
      have hLB := leapsBefore_succ t.year
      simp only [dayNumber, hm12, hd, daysBeforeMonth]
      cases hL : isLeap t.year <;> simp [hL] at hLB ⊢ <;> omega

theorem secs_addDate1D (t : GoTime) (hV : t.Valid) :
    secs (addDate1D t) = secs t + 86400 := by
  obtain ⟨hh, hm, hs, _⟩ := addDate1D_time t
  unfold secs
  rw [dayNumber_next t hV, hh, hm, hs]
  ring

theorem dayNumber_prev (t : GoTime) (hV : t.Valid) :
    dayNumber (subDate1D t).year (subDate1D t).month (subDate1D t).day =
      dayNumber t.year t.month t.day - 1 := by
  obtain ⟨h1, h2, h3, h4, _⟩ := hV
  unfold subDate1D
  split
  case isTrue h =>
    simp only [dayNumber]
    omega
  case isFalse h =>
    have hd : t.day = 1 := by omega
    split
    case isTrue hm =>
      have hstep := daysBeforeMonth_succ (isLeap t.year) (t.month - 1) (by omega) (by omega)
      have hmm : t.month - 1 + 1 = t.month := by omega
      rw [hmm] at hstep
      simp only [dayNumber, daysIn, hd]
      push_cast [hstep]
      omega
    case isFalse hm =>
      have hm1 : t.month = 1 := by omega
      have hLB := leapsBefore_succ (t.year - 1)
      have hy : t.year - 1 + 1 = t.year := by ring
      rw [hy] at hLB
      simp only [dayNumber, hm1, hd, daysBeforeMonth]
      cases hL : isLeap (t.year - 1) <;> simp [hL] at hLB ⊢ <;> omega

theorem secs_subDate1D (t : GoTime) (hV : t.Valid) :
    secs (subDate1D t) = secs t - 86400 := by
  obtain ⟨hh, hm, hs, _⟩ := subDate1D_time t
  unfold secs
  rw [dayNumber_prev t hV, hh, hm, hs]
  ring

theorem valid_addDate1D (t : GoTime) (hV : t.Valid) : (addDate1D t).Valid := by
  obtain ⟨h1, h2, h3, h4, h5, h6, h7, h8⟩ := hV
  unfold addDate1D
  split
  case isTrue h =>
    simp only [GoTime.Valid]
    exact ⟨h1, h2, by omega, by omega, h5, h6, h7, h8⟩
  case isFalse h =>
    split
    case isTrue hm =>
      have hb := daysIn_bounds t.year (t.month + 1) (by omega) (by omega)
      simp only [GoTime.Valid]
      exact ⟨by omega, by omega, by omega, by omega, h5, h6, h7, h8⟩
    case isFalse hm =>
      simp only [GoTime.Valid]
      refine ⟨by omega, by omega, by omega, ?_, h5, h6, h7, h8⟩
      rw [daysIn_one]
      omega

theorem valid_subDate1D (t : GoTime) (hV : t.Valid) : (subDate1D t).Valid := by
  obtain ⟨h1, h2, h3, h4, h5, h6, h7, h8⟩ := hV
  unfold subDate1D
  split
  case isTrue h =>
    simp only [GoTime.Valid]
    exact ⟨h1, h2, by omega, by omega, h5, h6, h7, h8⟩
  case isFalse h =>
    split
    case isTrue hm =>
      have hb := daysIn_bounds t.year (t.month - 1) (by omega) (by omega)
      simp only [GoTime.Valid]
      exact ⟨by omega, by omega, by omega, by omega, h5, h6, h7, h8⟩
    case isFalse hm =>
      simp only [GoTime.Valid]
      refine ⟨by omega, by omega, by omega, ?_, h5, h6, h7, h8⟩
      rw [daysIn_twelve]

theorem monthLen_ne_two (L L' : Bool) (m : Nat) (h1 : 1 ≤ m) (h2 : m ≤ 12)
    (hm : m ≠ 2) : monthLen L m = monthLen L' m := by
  interval_cases m <;> cases L <;> cases L' <;> first | rfl | omega

theorem daysBeforeMonth_leap_diff (L L' : Bool) (m : Nat) (h1 : 1 ≤ m)
    (h2 : m ≤ 12) :
    (daysBeforeMonth L' m : Int) - (daysBeforeMonth L m : Int) =
      if m ≤ 2 then 0
      else (if L' = true then 1 else 0) - (if L = true then 1 else 0) := by
  interval_cases m <;> cases L <;> cases L' <;> decide

theorem secs_addDate1M (t : GoTime) (hV : t.Valid) :
    secs (addDate1M t) = secs t + 86400 * (daysIn t.year t.month : Int) := by
  obtain ⟨h1, h2, h3, h4, h5, h6, h7, h8⟩ := hV
  by_cases h12 : t.month = 12
  · have h31 : t.day ≤ 31 := by rw [h12, daysIn_twelve] at h4; exact h4
    simp only [addDate1M, h12, if_pos rfl, if_true]
    rw [if_pos (by rw [daysIn_one]; omega : t.day ≤ daysIn (t.year + 1) 1)]
    have hLB := leapsBefore_succ t.year
    rw [h12] at h4
    rw [daysIn_twelve] at h4
    simp only [secs, dayNumber, h12, daysBeforeMonth, daysIn, monthLen]
    cases hL : isLeap t.year <;> simp [hL] at hLB ⊢ <;> push_cast <;> omega
  · have hm11 : t.month ≤ 11 := by omega
    simp only [addDate1M, if_neg h12]
    split
    next hle =>
      have hstep := daysBeforeMonth_succ (isLeap t.year) t.month h1 hm11
      simp only [secs, dayNumber, daysIn] at *
      push_cast [hstep]
      ring
    next hgt =>
      rw [daysIn] at hgt h4
      have hm10 : t.month ≤ 10 := by
        by_contra hc
        have hm11e : t.month = 11 := by omega
        rw [hm11e] at hgt h4
        norm_num at hgt
        have ha : monthLen (isLeap t.year) 12 = 31 := by cases isLeap t.year <;> rfl
        have hb : monthLen (isLeap t.year) 11 = 30 := by cases isLeap t.year <;> rfl
        omega
      have hstep1 := daysBeforeMonth_succ (isLeap t.year) t.month h1 hm11
      have hstep2 := daysBeforeMonth_succ (isLeap t.year) (t.month + 1) (by omega) (by omega)
      simp only [secs, dayNumber, daysIn] at *
      push_cast [hstep1, hstep2]
      omega

theorem valid_addDate1M (t : GoTime) (hV : t.Valid) : (addDate1M t).Valid := by
  obtain ⟨h1, h2, h3, h4, h5, h6, h7, h8⟩ := hV
  by_cases h12 : t.month = 12
  · have h31 : t.day ≤ 31 := by rw [h12, daysIn_twelve] at h4; exact h4
    simp only [addDate1M, h12, if_pos rfl, if_true]
    rw [if_pos (by rw [daysIn_one]; omega : t.day ≤ daysIn (t.year + 1) 1)]
    simp only [GoTime.Valid]
    refine ⟨by omega, by omega, h3, ?_, h5, h6, h7, h8⟩
    rw [daysIn_one]
    omega
  · simp only [addDate1M, if_neg h12]
    split
    next hle =>
      simp only [GoTime.Valid]
      exact ⟨by omega, by omega, h3, hle, h5, h6, h7, h8⟩
    next hgt =>
      have hm10 : t.month ≤ 10 := by
        by_contra hc
        have hm11e : t.month = 11 := by omega
        rw [hm11e] at hgt h4
        norm_num at hgt
        have ha := daysIn_twelve t.year
        have hb : daysIn t.year 11 = 30 := by
          rw [daysIn]; cases isLeap t.year <;> rfl
        omega
      have hb1 := daysIn_bounds t.year t.month h1 (by omega)
      have hb2 := daysIn_bounds t.year (t.month + 1) (by omega) (by omega)
      have hb3 := daysIn_bounds t.year (t.month + 1 + 1) (by omega) (by omega)
      simp only [GoTime.Valid]
      exact ⟨by omega, by omega, by omega, by omega, h5, h6, h7, h8⟩

theorem secs_subDate1M (t : GoTime) (hV : t.Valid) :
    secs (subDate1M t) = secs t -
      86400 * (daysIn (if t.month = 1 then t.year - 1 else t.year)
        (if t.month = 1 then 12 else t.month - 1) : Int) := by
  obtain ⟨h1, h2, h3, h4, h5, h6, h7, h8⟩ := hV
  by_cases h1m : t.month = 1
  · have h31 : t.day ≤ 31 := by rw [h1m, daysIn_one] at h4; exact h4
    simp only [subDate1M, h1m, if_pos rfl, if_true]
    rw [if_pos (by rw [daysIn_twelve]; omega : t.day ≤ daysIn (t.year - 1) 12)]
    have hLB := leapsBefore_succ (t.year - 1)
    have hy : t.year - 1 + 1 = t.year := by ring
    rw [hy] at hLB
    simp only [secs, dayNumber, h1m, daysBeforeMonth, daysIn, monthLen]
    cases hL : isLeap (t.year - 1) <;> simp [hL] at hLB ⊢ <;> omega
  · have hm2 : 2 ≤ t.month := by omega
    simp only [subDate1M, if_neg h1m]
    split
    next hle =>
      have hstep := daysBeforeMonth_succ (isLeap t.year) (t.month - 1) (by omega) (by omega)
      have hmm : t.month - 1 + 1 = t.month := by omega
      rw [hmm] at hstep
      simp only [secs, dayNumber, daysIn] at *
      push_cast [hstep]
      omega
    next hgt =>
      have hmm : t.month - 1 + 1 = t.month := by omega
      rw [hmm]
      have hstep := daysBeforeMonth_succ (isLeap t.year) (t.month - 1) (by omega) (by omega)
      rw [hmm] at hstep
      simp only [secs, dayNumber, daysIn] at *
      push_cast [hstep]
      omega

theorem valid_subDate1M (t : GoTime) (hV : t.Valid) : (subDate1M t).Valid := by
  obtain ⟨h1, h2, h3, h4, h5, h6, h7, h8⟩ := hV
  by_cases h1m : t.month = 1
  · have h31 : t.day ≤ 31 := by rw [h1m, daysIn_one] at h4; exact h4
    simp only [subDate1M, h1m, if_pos rfl, if_true]
    rw [if_pos (by rw [daysIn_twelve]; omega : t.day ≤ daysIn (t.year - 1) 12)]
    simp only [GoTime.Valid]
    refine ⟨by omega, by omega, h3, ?_, h5, h6, h7, h8⟩
    rw [daysIn_twelve]
    omega
  · have hm2 : 2 ≤ t.month := by omega
    simp only [subDate1M, if_neg h1m]
    split
    next hle =>
      simp only [GoTime.Valid]
      exact ⟨by omega, by omega, h3, hle, h5, h6, h7, h8⟩
    next hgt =>
      have hmm : t.month - 1 + 1 = t.month := by omega
      have hb1 := daysIn_bounds t.year (t.month - 1) (by omega) (by omega)
      have hb2 := daysIn_bounds t.year (t.month - 1 + 1) (by omega) (by omega)
      rw [hmm] at hb2
      simp only [GoTime.Valid]
      refine ⟨by omega, by omega, by omega, ?_, h5, h6, h7, h8⟩
      rw [hmm]
      omega

theorem secs_addDate1Y (t : GoTime) (hV : t.Valid) :
    secs t + 365 * 86400 ≤ secs (addDate1Y t) ∧
      secs (addDate1Y t) ≤ secs t + 366 * 86400 := by
  obtain ⟨h1, h2, h3, h4, h5, h6, h7, h8⟩ := hV
  have hLB := leapsBefore_succ t.year
  simp only [addDate1Y]
  split
  next hle =>
    have hdiff := daysBeforeMonth_leap_diff (isLeap t.year) (isLeap (t.year + 1))
      t.month h1 h2
    simp only [secs, dayNumber]
    by_cases hm3 : t.month ≤ 2
    · rw [if_pos hm3] at hdiff
      cases hLa : isLeap t.year <;> cases hLb : isLeap (t.year + 1) <;>
        simp [hLa, hLb] at hdiff hLB ⊢ <;> omega
    · rw [if_neg hm3] at hdiff
      cases hLa : isLeap t.year <;> cases hLb : isLeap (t.year + 1) <;>
        simp [hLa, hLb] at hdiff hLB ⊢ <;> omega
  next hgt =>
    rw [daysIn] at hgt h4
    have hm2 : t.month = 2 := by
      by_contra hc
      rw [monthLen_ne_two (isLeap (t.year + 1)) (isLeap t.year) t.month h1 h2 hc] at hgt
      omega
    rw [hm2] at hgt h4
    have hc1 : isLeap t.year = true := by
      cases hL : isLeap t.year
      · rw [hL] at h4
        simp only [monthLen] at h4
        cases hL2 : isLeap (t.year + 1) <;> rw [hL2] at hgt <;>
          simp only [monthLen] at hgt <;> simp at h4 hgt <;> omega
      · rfl
    have hc2 : isLeap (t.year + 1) = false := by
      cases hL2 : isLeap (t.year + 1)
      · rfl
      · rw [hc1] at h4
        rw [hL2] at hgt
        simp only [monthLen] at hgt h4
        simp at h4 hgt
        omega
    have hd29 : t.day = 29 := by
      rw [hc1] at h4
      rw [hc2] at hgt
      simp only [monthLen] at hgt h4
      simp at h4 hgt
      omega
    rw [hc1] at hLB
    norm_num at hLB
    simp only [secs, dayNumber, hm2, hd29, hc2, daysIn, daysBeforeMonth, monthLen]
    norm_num
    omega

theorem daysIn_ne_two (y y2 : Int) (m : Nat) (h1 : 1 ≤ m) (h2 : m ≤ 12)
    (hm : m ≠ 2) : daysIn y m = daysIn y2 m := by
  rw [daysIn, daysIn]
  exact monthLen_ne_two (isLeap y) (isLeap y2) m h1 h2 hm

theorem valid_addDate1Y (t : GoTime) (hV : t.Valid) : (addDate1Y t).Valid := by
  obtain ⟨h1, h2, h3, h4, h5, h6, h7, h8⟩ := hV
  simp only [addDate1Y]
  split
  next hle =>
    simp only [GoTime.Valid]
    exact ⟨h1, h2, h3, hle, h5, h6, h7, h8⟩
  next hgt =>
    have hm2 : t.month = 2 := by
      by_contra hc
      rw [daysIn_ne_two (t.year + 1) t.year t.month h1 h2 hc] at hgt
      omega
    rw [hm2] at hgt h4
    have hmono : daysIn t.year 2 ≤ 29 := by
      rw [daysIn]; cases isLeap t.year <;> simp [monthLen]
    have hmono2 : 28 ≤ daysIn (t.year + 1) 2 := by
      rw [daysIn]; cases isLeap (t.year + 1) <;> simp [monthLen]
    have hb := daysIn_bounds (t.year + 1) (2 + 1) (by omega) (by omega)
    simp only [GoTime.Valid, hm2]
    exact ⟨by omega, by omega, by omega, by omega, h5, h6, h7, h8⟩

theorem secs_subDate1Y (t : GoTime) (hV : t.Valid) :
    secs t - 366 * 86400 ≤ secs (subDate1Y t) ∧
      secs (subDate1Y t) ≤ secs t - 365 * 86400 := by
  obtain ⟨h1, h2, h3, h4, h5, h6, h7, h8⟩ := hV
  have hLB := leapsBefore_succ (t.year - 1)
  have hy : t.year - 1 + 1 = t.year := by ring
  rw [hy] at hLB
  simp only [subDate1Y]
  split
  next hle =>
    have hdiff := daysBeforeMonth_leap_diff (isLeap t.year) (isLeap (t.year - 1))
      t.month h1 h2
    simp only [secs, dayNumber]
    by_cases hm3 : t.month ≤ 2
    · rw [if_pos hm3] at hdiff
      cases hLa : isLeap t.year <;> cases hLb : isLeap (t.year - 1) <;>
        simp [hLa, hLb] at hdiff hLB ⊢ <;> omega
    · rw [if_neg hm3] at hdiff
      cases hLa : isLeap t.year <;> cases hLb : isLeap (t.year - 1) <;>
        simp [hLa, hLb] at hdiff hLB ⊢ <;> omega
  next hgt =>
    rw [daysIn] at hgt h4
    have hm2 : t.month = 2 := by
      by_contra hc
      rw [monthLen_ne_two (isLeap (t.year - 1)) (isLeap t.year) t.month h1 h2 hc] at hgt
      omega
    rw [hm2] at hgt h4
    have hc1 : isLeap t.year = true := by
      cases hL : isLeap t.year
      · rw [hL] at h4
        simp only [monthLen] at h4
        cases hL2 : isLeap (t.year - 1) <;> rw [hL2] at hgt <;>
          simp only [monthLen] at hgt <;> simp at h4 hgt <;> omega
      · rfl
    have hc2 : isLeap (t.year - 1) = false := by
      cases hL2 : isLeap (t.year - 1)
      · rfl
      · rw [hc1] at h4
        rw [hL2] at hgt
        simp only [monthLen] at hgt h4
        simp at h4 hgt
        omega
    have hd29 : t.day = 29 := by
      rw [hc1] at h4
      rw [hc2] at hgt
      simp only [monthLen] at hgt h4
      simp at h4 hgt
      omega
    rw [hc2] at hLB
    norm_num at hLB
    simp only [secs, dayNumber, hm2, hd29, hc1, hc2, daysIn, daysBeforeMonth, monthLen]
    norm_num
    omega

theorem valid_subDate1Y (t : GoTime) (hV : t.Valid) : (subDate1Y t).Valid := by
  obtain ⟨h1, h2, h3, h4, h5, h6, h7, h8⟩ := hV
  simp only [subDate1Y]
  split
  next hle =>
    simp only [GoTime.Valid]
    exact ⟨h1, h2, h3, hle, h5, h6, h7, h8⟩
  next hgt =>
    have hm2 : t.month = 2 := by
      by_contra hc
      rw [daysIn_ne_two (t.year - 1) t.year t.month h1 h2 hc] at hgt
      omega
    rw [hm2] at hgt h4
    have hmono : daysIn t.year 2 ≤ 29 := by
      rw [daysIn]; cases isLeap t.year <;> simp [monthLen]
    have hmono2 : 28 ≤ daysIn (t.year - 1) 2 := by
      rw [daysIn]; cases isLeap (t.year - 1) <;> simp [monthLen]
    have hb := daysIn_bounds (t.year - 1) (2 + 1) (by omega) (by omega)
    simp only [GoTime.Valid, hm2]
    exact ⟨by omega, by omega, by omega, by omega, h5, h6, h7, h8⟩

theorem secs_with_minute (u : GoTime) (v : Nat) :
    secs { u with minute := v } = secs u - 60 * (u.minute : Int) + 60 * v := by
  simp only [secs]
  push_cast
  ring

theorem secs_with_second (u : GoTime) (v : Nat) :
    secs { u with second := v } = secs u - (u.second : Int) + v := by
  simp only [secs]
  push_cast
  ring

theorem add1Hour_minute (t : GoTime) : (add1Hour t).minute = t.minute := by
  unfold add1Hour
  split
  · rfl
  · exact (addDate1D_time t).2.1

theorem add1Hour_second (t : GoTime) : (add1Hour t).second = t.second := by
  unfold add1Hour
  split
  · rfl
  · exact (addDate1D_time t).2.2.1

theorem add1Hour_nsec (t : GoTime) : (add1Hour t).nsec = t.nsec := by
  unfold add1Hour
  split
  · rfl
  · exact (addDate1D_time t).2.2.2

theorem sub1Hour_minute (t : GoTime) : (sub1Hour t).minute = t.minute := by
  unfold sub1Hour
  split
  · rfl
  · exact (subDate1D_time t).2.1

theorem sub1Hour_second (t : GoTime) : (sub1Hour t).second = t.second := by
  unfold sub1Hour
  split
  · rfl
  · exact (subDate1D_time t).2.2.1

theorem sub1Hour_nsec (t : GoTime) : (sub1Hour t).nsec = t.nsec := by
  unfold sub1Hour
  split
  · rfl
  · exact (subDate1D_time t).2.2.2

theorem secs_add1Hour (t : GoTime) (hV : t.Valid) :
    secs (add1Hour t) = secs t + 3600 := by
  unfold add1Hour
  split
  case isTrue h =>
    simp only [secs]
    push_cast
    ring
  case isFalse h =>
    have h23 : t.hour = 23 := by
      obtain ⟨_, _, _, _, h5, _⟩ := hV
      omega
    obtain ⟨hh, hm, hs, _⟩ := addDate1D_time t
    simp only [secs]
    rw [dayNumber_next t hV, hm, hs, h23]
    push_cast
    ring

theorem valid_add1Hour (t : GoTime) (hV : t.Valid) : (add1Hour t).Valid := by
  unfold add1Hour
  split
  case isTrue h =>
    obtain ⟨h1, h2, h3, h4, h5, h6, h7, h8⟩ := hV
    simp only [GoTime.Valid]
    exact ⟨h1, h2, h3, h4, by omega, h6, h7, h8⟩
  case isFalse h =>
    obtain ⟨h1, h2, h3, h4, h5, h6, h7, h8⟩ := valid_addDate1D t hV
    simp only [GoTime.Valid]
    exact ⟨h1, h2, h3, h4, by omega, h6, h7, h8⟩

theorem secs_sub1Hour (t : GoTime) (hV : t.Valid) :
    secs (sub1Hour t) = secs t - 3600 := by
  unfold sub1Hour
  split
  case isTrue h =>
    simp only [secs]
    push_cast
    omega
  case isFalse h =>
    have h0 : t.hour = 0 := by omega
    obtain ⟨hh, hm, hs, _⟩ := subDate1D_time t
    simp only [secs]
    rw [dayNumber_prev t hV, hm, hs, h0]
    push_cast
    ring

theorem valid_sub1Hour (t : GoTime) (hV : t.Valid) : (sub1Hour t).Valid := by
  unfold sub1Hour
  split
  case isTrue h =>
    obtain ⟨h1, h2, h3, h4, h5, h6, h7, h8⟩ := hV
    simp only [GoTime.Valid]
    exact ⟨h1, h2, h3, h4, by omega, h6, h7, h8⟩
  case isFalse h =>
    obtain ⟨h1, h2, h3, h4, h5, h6, h7, h8⟩ := valid_subDate1D t hV
    simp only [GoTime.Valid]
    exact ⟨h1, h2, h3, h4, by omega, h6, h7, h8⟩

theorem secs_add1Minute (t : GoTime) (hV : t.Valid) :
    secs (add1Minute t) = secs t + 60 := by
  unfold add1Minute
  split
  case isTrue h =>
    simp only [secs]
    push_cast
    ring
  case isFalse h =>
    have h59 : t.minute = 59 := by
      obtain ⟨_, _, _, _, _, h6, _⟩ := hV
      omega
    rw [secs_with_minute, secs_add1Hour t hV, add1Hour_minute, h59]
    push_cast
    ring

theorem add1Minute_second (t : GoTime) : (add1Minute t).second = t.second := by
  unfold add1Minute
  split
  · rfl
  · exact add1Hour_second t

theorem add1Minute_nsec (t : GoTime) : (add1Minute t).nsec = t.nsec := by
  unfold add1Minute
  split
  · rfl
  · exact add1Hour_nsec t

theorem sub1Minute_second (t : GoTime) : (sub1Minute t).second = t.second := by
  unfold sub1Minute
  split
  · rfl
  · exact sub1Hour_second t

theorem sub1Minute_nsec (t : GoTime) : (sub1Minute t).nsec = t.nsec := by
  unfold sub1Minute
  split
  · rfl
  · exact sub1Hour_nsec t

theorem valid_add1Minute (t : GoTime) (hV : t.Valid) : (add1Minute t).Valid := by
  unfold add1Minute
  split
  case isTrue h =>
    obtain ⟨h1, h2, h3, h4, h5, h6, h7, h8⟩ := hV
    simp only [GoTime.Valid]
    exact ⟨h1, h2, h3, h4, h5, by omega, h7, h8⟩
  case isFalse h =>
    obtain ⟨h1, h2, h3, h4, h5, h6, h7, h8⟩ := valid_add1Hour t hV
    simp only [GoTime.Valid]
    exact ⟨h1, h2, h3, h4, h5, by omega, h7, h8⟩

theorem secs_sub1Minute (t : GoTime) (hV : t.Valid) :
    secs (sub1Minute t) = secs t - 60 := by
  unfold sub1Minute
  split
  case isTrue h =>
    simp only [secs]
    push_cast
    omega
  case isFalse h =>
    have h0 : t.minute = 0 := by omega
    rw [secs_with_minute, secs_sub1Hour t hV, sub1Hour_minute, h0]
    push_cast
    ring

theorem valid_sub1Minute (t : GoTime) (hV : t.Valid) : (sub1Minute t).Valid := by
  unfold sub1Minute
  split
  case isTrue h =>
    obtain ⟨h1, h2, h3, h4, h5, h6, h7, h8⟩ := hV
    simp only [GoTime.Valid]
    exact ⟨h1, h2, h3, h4, h5, by omega, h7, h8⟩
  case isFalse h =>
    obtain ⟨h1, h2, h3, h4, h5, h6, h7, h8⟩ := valid_sub1Hour t hV
    simp only [GoTime.Valid]
    exact ⟨h1, h2, h3, h4, h5, by omega, h7, h8⟩

theorem secs_add1Second (t : GoTime) (hV : t.Valid) :
    secs (add1Second t) = secs t + 1 := by
  unfold add1Second
  split
  case isTrue h =>
    simp only [secs]
    push_cast
    ring
  case isFalse h =>
    have h59 : t.second = 59 := by
      obtain ⟨_, _, _, _, _, _, h7, _⟩ := hV
      omega
    rw [secs_with_second, secs_add1Minute t hV, add1Minute_second, h59]
    push_cast
    ring

theorem valid_add1Second (t : GoTime) (hV : t.Valid) : (add1Second t).Valid := by
  unfold add1Second
  split
  case isTrue h =>
    obtain ⟨h1, h2, h3, h4, h5, h6, h7, h8⟩ := hV
    simp only [GoTime.Valid]
    exact ⟨h1, h2, h3, h4, h5, h6, by omega, h8⟩
  case isFalse h =>
    obtain ⟨h1, h2, h3, h4, h5, h6, h7, h8⟩ := valid_add1Minute t hV
    simp only [GoTime.Valid]
    exact ⟨h1, h2, h3, h4, h5, h6, by omega, h8⟩

theorem secs_sub1Second (t : GoTime) (hV : t.Valid) :
    secs (sub1Second t) = secs t - 1 := by
  unfold sub1Second
  split
  case isTrue h =>
    simp only [secs]
    push_cast
    omega
  case isFalse h =>
    have h0 : t.second = 0 := by omega
    rw [secs_with_second, secs_sub1Minute t hV, sub1Minute_second, h0]
    push_cast
    ring

theorem valid_sub1Second (t : GoTime) (hV : t.Valid) : (sub1Second t).Valid := by
  unfold sub1Second
  split
  case isTrue h =>
    obtain ⟨h1, h2, h3, h4, h5, h6, h7, h8⟩ := hV
    simp only [GoTime.Valid]
    exact ⟨h1, h2, h3, h4, h5, h6, by omega, h8⟩
  case isFalse h =>
    obtain ⟨h1, h2, h3, h4, h5, h6, h7, h8⟩ := valid_sub1Minute t hV
    simp only [GoTime.Valid]
    exact ⟨h1, h2, h3, h4, h5, h6, by omega, h8⟩

theorem valid_addHours (k : Nat) (t : GoTime) (hV : t.Valid) :
    (addHours k t).Valid := by
  induction k generalizing t with
  | zero => exact hV
  | succ n ih => exact ih (add1Hour t) (valid_add1Hour t hV)

theorem secs_addHours (k : Nat) (t : GoTime) (hV : t.Valid) :
    secs (addHours k t) = secs t + 3600 * k := by
  induction k generalizing t with
  | zero => simp [addHours]
  | succ n ih =>
    rw [addHours, ih (add1Hour t) (valid_add1Hour t hV), secs_add1Hour t hV]
    push_cast
    ring

theorem valid_subHours (k : Nat) (t : GoTime) (hV : t.Valid) :
    (subHours k t).Valid := by
  induction k generalizing t with
  | zero => exact hV
  | succ n ih => exact ih (sub1Hour t) (valid_sub1Hour t hV)

theorem secs_subHours (k : Nat) (t : GoTime) (hV : t.Valid) :
    secs (subHours k t) = secs t - 3600 * k := by
  induction k generalizing t with
  | zero => simp [subHours]
  | succ n ih =>
    rw [subHours, ih (sub1Hour t) (valid_sub1Hour t hV), secs_sub1Hour t hV]
    push_cast
    ring

theorem daysBeforeMonth_mono (L : Bool) (m1 m2 : Nat) (h1 : 1 ≤ m1)
    (h : m1 ≤ m2) (h2 : m2 ≤ 12) :
    daysBeforeMonth L m1 ≤ daysBeforeMonth L m2 := by
  have h3 : m1 ≤ 12 := le_trans h h2
  interval_cases m1 <;> interval_cases m2 <;> cases L <;> decide

theorem dayNumber_ge_yearStart (t : GoTime) (hV : t.Valid) :
    dayNumber t.year 1 1 ≤ dayNumber t.year t.month t.day := by
  obtain ⟨h1, h2, h3, _⟩ := hV
  simp only [dayNumber, daysBeforeMonth]
  omega

theorem dayNumber_le_yearEnd (t : GoTime) (hV : t.Valid) :
    dayNumber t.year t.month t.day ≤ dayNumber t.year 12 31 := by
  obtain ⟨h1, h2, h3, h4, _⟩ := hV
  have hle := (daysBeforeMonth_le (isLeap t.year) t.month h1 h2).1
  rw [daysIn] at h4
  simp only [dayNumber]
  cases hL : isLeap t.year <;> rw [hL] at hle h4 <;>
    simp only [show daysBeforeMonth false 12 = 334 from rfl,
      show daysBeforeMonth true 12 = 335 from rfl] <;> norm_num at hle <;> omega

theorem dayNumber_yearStart_succ (y : Int) :
    dayNumber (y + 1) 1 1 =
      dayNumber y 1 1 + 365 + (if isLeap y = true then 1 else 0) := by
  have hLB := leapsBefore_succ y
  simp only [dayNumber, daysBeforeMonth]
  cases hL : isLeap y <;> rw [hL] at hLB <;> norm_num at hLB ⊢ <;> omega

theorem dayNumber_yearEnd_succ (y : Int) :
    dayNumber (y + 1) 1 1 = dayNumber y 12 31 + 1 := by
  have hLB := leapsBefore_succ y
  simp only [dayNumber, daysBeforeMonth]
  cases hL : isLeap y <;> rw [hL] at hLB <;> norm_num at hLB ⊢ <;> omega

theorem dayNumber_yearStart_gap (k : Nat) (y : Int) :
    dayNumber y 1 1 + 365 * k ≤ dayNumber (y + k) 1 1 ∧
      dayNumber (y + k) 1 1 ≤ dayNumber y 1 1 + 366 * k := by
  induction k with
  | zero => simp
  | succ n ih =>
    have hs := dayNumber_yearStart_succ (y + n)
    have hy : y + (n + 1 : Nat) = (y + n) + 1 := by push_cast; ring
    rw [hy]
    split at hs <;> (push_cast at *; omega)

theorem secs_ge_yearStart (t : GoTime) (hV : t.Valid) :
    dayNumber t.year 1 1 * 86400 ≤ secs t := by
  have h := dayNumber_ge_yearStart t hV
  simp only [secs]
  omega

theorem secs_lt_yearStart_succ (t : GoTime) (hV : t.Valid) :
    secs t < dayNumber (t.year + 1) 1 1 * 86400 := by
  have hend := dayNumber_le_yearEnd t hV
  have hs := dayNumber_yearEnd_succ t.year
  obtain ⟨_, _, _, _, h5, h6, h7, _⟩ := hV
  simp only [secs]
  rw [hs]
  omega

theorem dayNumber_lt_of_date_lt (a b : GoTime) (hA : a.Valid) (hB : b.Valid)
    (h : a.year = b.year ∧ (a.month < b.month ∨ (a.month = b.month ∧ a.day < b.day))) :
    dayNumber a.year a.month a.day < dayNumber b.year b.month b.day := by
  obtain ⟨hy, hmd⟩ := h
  obtain ⟨a1, a2, a3, a4, _⟩ := hA
  obtain ⟨b1, b2, b3, b4, _⟩ := hB
  rw [daysIn] at a4
  rw [hy] at a4 ⊢
  rcases hmd with hm | ⟨hm, hd⟩
  · have hstep := daysBeforeMonth_succ (isLeap b.year) a.month a1 (by omega)
    have hmono := daysBeforeMonth_mono (isLeap b.year) (a.month + 1) b.month
      (by omega) (by omega) b2
    simp only [dayNumber]
    omega
  · rw [hm]
    simp only [dayNumber]
    omega

theorem secs_lt_of_civil_lt (a b : GoTime) (hA : a.Valid) (hB : b.Valid)
    (h : a.year < b.year ∨ (a.year = b.year ∧ (a.month < b.month ∨ (a.month = b.month ∧
      (a.day < b.day ∨ (a.day = b.day ∧ (a.hour < b.hour ∨ (a.hour = b.hour ∧
        (a.minute < b.minute ∨ (a.minute = b.minute ∧ a.second < b.second)))))))))) :
    secs a < secs b := by
  have haV := hA
  have hbV := hB
  obtain ⟨a1, a2, a3, a4, a5, a6, a7, _⟩ := haV
  obtain ⟨b1, b2, b3, b4, b5, b6, b7, _⟩ := hbV
  rcases h with hy | ⟨hy, hm | ⟨hm, hd | ⟨hd, hrest⟩⟩⟩
  · have h1 : secs a < dayNumber (a.year + 1) 1 1 * 86400 :=
      secs_lt_yearStart_succ a hA
    have h2 : dayNumber b.year 1 1 * 86400 ≤ secs b := secs_ge_yearStart b hB
    have h3 : dayNumber (a.year + 1) 1 1 ≤ dayNumber b.year 1 1 := by
      have hk : b.year = (a.year + 1) + ((b.year - (a.year + 1)).toNat : Int) := by
        omega
      have hgap := (dayNumber_yearStart_gap (b.year - (a.year + 1)).toNat (a.year + 1)).1
      rw [hk]
      omega
    omega
  · have hdn := dayNumber_lt_of_date_lt a b hA hB ⟨hy, Or.inl hm⟩
    simp only [secs]
    omega
  · have hdn := dayNumber_lt_of_date_lt a b hA hB ⟨hy, Or.inr ⟨hm, hd⟩⟩
    simp only [secs]
    omega
  · have hdn : dayNumber a.year a.month a.day = dayNumber b.year b.month b.day := by
      rw [hy, hm, hd]
    simp only [secs]
    rw [hdn]
    omega

theorem le_of_secs_le (r t0 : GoTime) (hR : r.Valid) (hT : t0.Valid)
    (hsec : secs r ≤ secs t0) (hns : r.nsec = 0) : r.le t0 := by
  by_contra hne
  unfold GoTime.le at hne
  have hcase : (t0.year < r.year ∨ (t0.year = r.year ∧ (t0.month < r.month ∨
      (t0.month = r.month ∧ (t0.day < r.day ∨ (t0.day = r.day ∧
        (t0.hour < r.hour ∨ (t0.hour = r.hour ∧ (t0.minute < r.minute ∨
          (t0.minute = r.minute ∧ t0.second < r.second)))))))))) ∨
      (t0.year = r.year ∧ t0.month = r.month ∧ t0.day = r.day ∧ t0.hour = r.hour ∧
        t0.minute = r.minute ∧ t0.second = r.second ∧ t0.nsec < r.nsec) := by
    omega
  rcases hcase with hstrict | ⟨_, _, _, _, _, _, hn⟩
  · have := secs_lt_of_civil_lt t0 r hT hR hstrict
    omega
  · omega

theorem runSearch_succ {σ : Type} (step : σ → σ ⊕ SearchResult) (f : Nat) (st : σ) :
    runSearch step (f + 1) st =
      match step st with
      | .inl st1 => runSearch step f st1
      | .inr r => r := rfl

theorem runSearch_succ_inl {σ : Type} (step : σ → σ ⊕ SearchResult) (f : Nat)
    (st st1 : σ) (h : step st = .inl st1) :
    runSearch step (f + 1) st = runSearch step f st1 := by
  rw [runSearch_succ, h]

theorem runSearch_succ_inr {σ : Type} (step : σ → σ ⊕ SearchResult) (f : Nat)
    (st : σ) (r : SearchResult) (h : step st = .inr r) :
    runSearch step (f + 1) st = r := by
  rw [runSearch_succ, h]

theorem addDate1M_time (t : GoTime) :
    (addDate1M t).hour = t.hour ∧ (addDate1M t).minute = t.minute ∧
      (addDate1M t).second = t.second ∧ (addDate1M t).nsec = t.nsec := by
  simp only [addDate1M]
  split <;> split <;> exact ⟨rfl, rfl, rfl, rfl⟩

theorem addDate1Y_time (t : GoTime) :
    (addDate1Y t).hour = t.hour ∧ (addDate1Y t).minute = t.minute ∧
      (addDate1Y t).second = t.second ∧ (addDate1Y t).nsec = t.nsec := by
  simp only [addDate1Y]
  split <;> exact ⟨rfl, rfl, rfl, rfl⟩

theorem dstAdjust_hour0 (t : GoTime) (h : t.hour = 0) : dstAdjust t = t := by
  simp [dstAdjust, h]

theorem valid_goDate (y : Int) (mo d h mi : Nat) (h1 : 1 ≤ mo) (h2 : mo ≤ 12)
    (h3 : 1 ≤ d) (h4 : d ≤ daysIn y mo) (h5 : h ≤ 23) (h6 : mi ≤ 59) :
    (goDate y mo d h mi).Valid := by
  simp only [goDate, GoTime.Valid]
  exact ⟨h1, h2, h3, h4, h5, h6, by omega, by omega⟩

theorem valid_trunc_sec (t : GoTime) (hV : t.Valid) :
    ({ t with second := 0, nsec := 0 } : GoTime).Valid := by
  obtain ⟨h1, h2, h3, h4, h5, h6, _, _⟩ := hV
  simp only [GoTime.Valid]
  exact ⟨h1, h2, h3, h4, h5, h6, by omega, by omega⟩

theorem valid_trunc_nsec (t : GoTime) (hV : t.Valid) :
    ({ t with nsec := 0 } : GoTime).Valid := by
  obtain ⟨h1, h2, h3, h4, h5, h6, h7, _⟩ := hV
  simp only [GoTime.Valid]
  exact ⟨h1, h2, h3, h4, h5, h6, h7, by omega⟩

theorem weekday_congr (a b : GoTime) (hy : a.year = b.year) (hm : a.month = b.month)
    (hd : a.day = b.day) : weekday a = weekday b := by
  unfold weekday
  rw [hy, hm, hd]

theorem dayMatches_congr (s : SpecSchedule) (a b : GoTime) (hy : a.year = b.year)
    (hm : a.month = b.month) (hd : a.day = b.day) :
    dayMatches s a = dayMatches s b := by
  unfold dayMatches
  rw [weekday_congr a b hy hm hd, hd]

theorem dateVerified_congr (s : SpecSchedule) (yl : Int) (a b : GoTime)
    (hy : a.year = b.year) (hm : a.month = b.month) (hd : a.day = b.day)
    (h : dateVerified s yl a) : dateVerified s yl b := by
  unfold dateVerified yearOK at h ⊢
  obtain ⟨⟨k1, k2, k3, k4⟩, k5, k6⟩ := h
  rw [hy] at k1 k2 k3 k4
  rw [hm] at k5
  rw [dayMatches_congr s a b hy hm hd] at k6
  exact ⟨⟨k1, k2, k3, k4⟩, k5, k6⟩

theorem addDate1D_day_ne_one (t : GoTime) (h : (addDate1D t).day ≠ 1) :
    (addDate1D t).year = t.year ∧ (addDate1D t).month = t.month := by
  by_cases h1 : t.day < daysIn t.year t.month
  · unfold addDate1D
    rw [if_pos h1]
    exact ⟨rfl, rfl⟩
  · exfalso
    apply h
    by_cases h2 : t.month < 12
    · simp only [addDate1D, if_neg h1, if_pos h2]
    · simp only [addDate1D, if_neg h1, if_neg h2]

theorem addDate1M_month_ne_one (t : GoTime) (hV : t.Valid)
    (h : (addDate1M t).month ≠ 1) : (addDate1M t).year = t.year := by
  obtain ⟨h1, h2, h3, h4, _⟩ := hV
  by_cases h12 : t.month = 12
  · exfalso
    apply h
    have h31 : t.day ≤ 31 := by rw [h12, daysIn_twelve] at h4; exact h4
    simp only [addDate1M, h12, if_pos rfl, if_true]
    rw [if_pos (by rw [daysIn_one]; omega : t.day ≤ daysIn (t.year + 1) 1)]
  · simp only [addDate1M, if_neg h12]
    split <;> rfl

theorem nextSound (s : SpecSchedule) (yl : Int) :
    ∀ (f : Nat) (st : NextState) (r : GoTime), nextInv s yl st →
      runSearch (nextStep s yl) f st = .found r →
      r.Valid ∧ matchesAll s r ∧ r.year ≤ yl ∧ r.year ≤ maxYear := by
  intro f
  induction f with
  | zero =>
    intro st r _ hrun
    simp [runSearch] at hrun
  | succ n ih =>
    intro st r hinv hrun
    obtain ⟨ph, added, t⟩ := st
    cases ph with
    | wrap =>
      have hinv2 : t.Valid ∧ (added = true → t.hour ≠ 0 → dateVerified s yl t) := hinv
      obtain ⟨hV, himp⟩ := hinv2
      by_cases hg : (t.year > yl ∨ t.year > maxYear)
      · have hstep : nextStep s yl ⟨.wrap, added, t⟩ = .inr .noMatch := by
          simp only [nextStep]
          rw [if_pos hg]
        rw [runSearch_succ_inr _ _ _ _ hstep] at hrun
        simp at hrun
      · have hstep : nextStep s yl ⟨.wrap, added, t⟩ = .inl ⟨.year, added, t⟩ := by
          simp only [nextStep]
          rw [if_neg hg]
        rw [runSearch_succ_inl _ _ _ _ hstep] at hrun
        push_neg at hg
        exact ih ⟨.year, added, t⟩ r ⟨hV, himp, hg.1, hg.2⟩ hrun
    | year =>
      have hinv2 : t.Valid ∧ ((added = true → t.hour ≠ 0 → dateVerified s yl t) ∧
          t.year ≤ yl ∧ t.year ≤ maxYear) := hinv
      obtain ⟨hV, himp, hyl, hmax⟩ := hinv2
      by_cases hg : (t.year < minYear ∨ s.Year.testBit (t.year - minYear).toNat = false)
      · by_cases hov :
            ((addDate1Y (if added = false then goDate t.year 1 1 0 0 else t)).year > yl ∨
              (addDate1Y (if added = false then goDate t.year 1 1 0 0 else t)).year > maxYear)
        · have hstep : nextStep s yl ⟨.year, added, t⟩ = .inr .noMatch := by
            simp only [nextStep]
            rw [if_pos hg, if_pos hov]
          rw [runSearch_succ_inr _ _ _ _ hstep] at hrun
          simp at hrun
        · have hstep : nextStep s yl ⟨.year, added, t⟩ =
              .inl ⟨.year, true,
                addDate1Y (if added = false then goDate t.year 1 1 0 0 else t)⟩ := by
            simp only [nextStep]
            rw [if_pos hg, if_neg hov]
          rw [runSearch_succ_inl _ _ _ _ hstep] at hrun
          have hV1 : (if added = false then goDate t.year 1 1 0 0 else t).Valid := by
            split
            · exact valid_goDate _ _ _ _ _ (le_refl 1) (by norm_num) (le_refl 1)
                (by rw [daysIn_one]; norm_num) (by norm_num) (by norm_num)
            · exact hV
          push_neg at hov
          refine ih ⟨NextPhase.year, true, addDate1Y (if added = false then goDate t.year 1 1 0 0 else t)⟩ r
            ⟨valid_addDate1Y _ hV1, ?_, hov.1, hov.2⟩ hrun
          intro _ hne
          exfalso
          have hhh := (addDate1Y_time (if added = false then goDate t.year 1 1 0 0 else t)).1
          by_cases ha : added = false
          · rw [if_pos ha] at hne hhh
            exact hne (by rw [hhh]; rfl)
          · rw [if_neg ha] at hne hhh
            rw [hhh] at hne
            have ha2 : added = true := by
              cases added
              · exact absurd rfl ha
              · rfl
            obtain ⟨⟨k1, _, _, k4⟩, _, _⟩ := himp ha2 hne
            rcases hg with hlt | hbit
            · omega
            · rw [k4] at hbit
              simp at hbit
      · have hstep : nextStep s yl ⟨.year, added, t⟩ = .inl ⟨.month, added, t⟩ := by
          simp only [nextStep]
          rw [if_neg hg]
        rw [runSearch_succ_inl _ _ _ _ hstep] at hrun
        have hge : minYear ≤ t.year := by
          by_contra hc
          exact hg (Or.inl (by omega))
        have hbit : s.Year.testBit (t.year - minYear).toNat = true := by
          cases hb : s.Year.testBit (t.year - minYear).toNat
          · exact absurd (Or.inr hb) hg
          · rfl
        exact ih ⟨.month, added, t⟩ r ⟨hV, himp, hge, hyl, hmax, hbit⟩ hrun
    | month =>
      have hinv2 : t.Valid ∧ ((added = true → t.hour ≠ 0 → dateVerified s yl t) ∧
          yearOK s yl t) := hinv
      obtain ⟨hV, himp, hyok⟩ := hinv2
      by_cases hg : (s.Month.testBit t.month = false)
      · have hV1 : (if added = false then goDate t.year t.month 1 0 0 else t).Valid := by
          split
          · refine valid_goDate _ _ _ _ _ hV.1 hV.2.1 (le_refl 1) ?_ (by norm_num)
              (by norm_num)
            have := daysIn_bounds t.year t.month hV.1 hV.2.1
            omega
          · exact hV
        have hT1y : (if added = false then goDate t.year t.month 1 0 0 else t).year =
            t.year := by
          split <;> rfl
        have himpNew : (true : Bool) = true →
            (addDate1M (if added = false then goDate t.year t.month 1 0 0 else t)).hour ≠ 0 →
            dateVerified s yl
              (addDate1M (if added = false then goDate t.year t.month 1 0 0 else t)) := by
          intro _ hne
          exfalso
          have hhh := (addDate1M_time
            (if added = false then goDate t.year t.month 1 0 0 else t)).1
          by_cases ha : added = false
          · rw [if_pos ha] at hne hhh
            exact hne (by rw [hhh]; rfl)
          · rw [if_neg ha] at hne hhh
            rw [hhh] at hne
            have ha2 : added = true := by
              cases added
              · exact absurd rfl ha
              · rfl
            obtain ⟨_, k5, _⟩ := himp ha2 hne
            rw [k5] at hg
            simp at hg
        by_cases hone :
            ((addDate1M (if added = false then goDate t.year t.month 1 0 0 else t)).month = 1)
        · have hstep : nextStep s yl ⟨.month, added, t⟩ =
              .inl ⟨.wrap, true,
                addDate1M (if added = false then goDate t.year t.month 1 0 0 else t)⟩ := by
            simp only [nextStep]
            rw [if_pos hg, if_pos hone]
          rw [runSearch_succ_inl _ _ _ _ hstep] at hrun
          exact ih ⟨NextPhase.wrap, true, addDate1M (if added = false then goDate t.year t.month 1 0 0 else t)⟩ r
            ⟨valid_addDate1M _ hV1, himpNew⟩ hrun
        · have hstep : nextStep s yl ⟨.month, added, t⟩ =
              .inl ⟨.month, true,
                addDate1M (if added = false then goDate t.year t.month 1 0 0 else t)⟩ := by
            simp only [nextStep]
            rw [if_pos hg, if_neg hone]
          rw [runSearch_succ_inl _ _ _ _ hstep] at hrun
          have hyr : (addDate1M (if added = false then goDate t.year t.month 1 0 0 else t)).year =
              t.year := by
            rw [addDate1M_month_ne_one _ hV1 hone, hT1y]
          have hyok2 : yearOK s yl
              (addDate1M (if added = false then goDate t.year t.month 1 0 0 else t)) := by
            unfold yearOK at hyok ⊢
            rw [hyr]
            exact hyok
          exact ih ⟨NextPhase.month, true, addDate1M (if added = false then goDate t.year t.month 1 0 0 else t)⟩ r
            ⟨valid_addDate1M _ hV1, himpNew, hyok2⟩ hrun
      · have hstep : nextStep s yl ⟨.month, added, t⟩ = .inl ⟨.day, added, t⟩ := by
          simp only [nextStep]
          rw [if_neg hg]
        rw [runSearch_succ_inl _ _ _ _ hstep] at hrun
        have hmb : s.Month.testBit t.month = true := by
          cases hb : s.Month.testBit t.month
          · exact absurd hb hg
          · rfl
        exact ih ⟨.day, added, t⟩ r ⟨hV, himp, hyok, hmb⟩ hrun
    | day =>
      have hinv2 : t.Valid ∧ ((added = true → t.hour ≠ 0 → dateVerified s yl t) ∧
          yearOK s yl t ∧ s.Month.testBit t.month = true) := hinv
      obtain ⟨hV, himp, hyok, hmb⟩ := hinv2
      by_cases hg : (dayMatches s t = false)
      · have hV1 : (if added = false then goDate t.year t.month t.day 0 0 else t).Valid := by
          split
          · exact valid_goDate _ _ _ _ _ hV.1 hV.2.1 hV.2.2.1 hV.2.2.2.1 (by norm_num)
              (by norm_num)
          · exact hV
        have hh0 : (if added = false then goDate t.year t.month t.day 0 0 else t).hour = 0 := by
          by_cases ha : added = false
          · rw [if_pos ha]
            rfl
          · rw [if_neg ha]
            have ha2 : added = true := by
              cases added
              · exact absurd rfl ha
              · rfl
            by_contra hc
            obtain ⟨_, _, k6⟩ := himp ha2 hc
            rw [k6] at hg
            simp at hg
        have hadv : nextDayAdvance (if added = false then goDate t.year t.month t.day 0 0 else t) =
            addDate1D (if added = false then goDate t.year t.month t.day 0 0 else t) := by
          unfold nextDayAdvance
          exact dstAdjust_hour0 _ (by
            rw [(addDate1D_time (if added = false then goDate t.year t.month t.day 0 0 else t)).1,
              hh0])
        have hV2 : (nextDayAdvance
            (if added = false then goDate t.year t.month t.day 0 0 else t)).Valid := by
          rw [hadv]
          exact valid_addDate1D _ hV1
        have himpNew : (true : Bool) = true →
            (nextDayAdvance (if added = false then goDate t.year t.month t.day 0 0 else t)).hour ≠ 0 →
            dateVerified s yl
              (nextDayAdvance (if added = false then goDate t.year t.month t.day 0 0 else t)) := by
          intro _ hne
          exfalso
          apply hne
          rw [hadv,
            (addDate1D_time (if added = false then goDate t.year t.month t.day 0 0 else t)).1,
            hh0]
        by_cases hone :
            ((nextDayAdvance (if added = false then goDate t.year t.month t.day 0 0 else t)).day = 1)
        · have hstep : nextStep s yl ⟨.day, added, t⟩ =
              .inl ⟨.wrap, true,
                nextDayAdvance (if added = false then goDate t.year t.month t.day 0 0 else t)⟩ := by
            simp only [nextStep]
            rw [if_pos hg, if_pos hone]
          rw [runSearch_succ_inl _ _ _ _ hstep] at hrun
          exact ih ⟨NextPhase.wrap, true, nextDayAdvance (if added = false then goDate t.year t.month t.day 0 0 else t)⟩ r
            ⟨hV2, himpNew⟩ hrun
        · have hstep : nextStep s yl ⟨.day, added, t⟩ =
              .inl ⟨.day, true,
                nextDayAdvance (if added = false then goDate t.year t.month t.day 0 0 else t)⟩ := by
            simp only [nextStep]
            rw [if_pos hg, if_neg hone]
          rw [runSearch_succ_inl _ _ _ _ hstep] at hrun
          rw [hadv] at hone
          have hpres := addDate1D_day_ne_one _ hone
          have hT1y : (if added = false then goDate t.year t.month t.day 0 0 else t).year =
              t.year := by
            split <;> rfl
          have hT1m : (if added = false then goDate t.year t.month t.day 0 0 else t).month =
              t.month := by
            split <;> rfl
          have hyok2 : yearOK s yl
              (nextDayAdvance (if added = false then goDate t.year t.month t.day 0 0 else t)) := by
            unfold yearOK at hyok ⊢
            rw [hadv, hpres.1, hT1y]
            exact hyok
          have hmb2 : s.Month.testBit
              (nextDayAdvance (if added = false then goDate t.year t.month t.day 0 0 else t)).month =
              true := by
            rw [hadv, hpres.2, hT1m]
            exact hmb
          exact ih ⟨NextPhase.day, true, nextDayAdvance (if added = false then goDate t.year t.month t.day 0 0 else t)⟩ r
            ⟨hV2, himpNew, hyok2, hmb2⟩ hrun
      · have hstep : nextStep s yl ⟨.day, added, t⟩ = .inl ⟨.hour, added, t⟩ := by
          simp only [nextStep]
          rw [if_neg hg]
        rw [runSearch_succ_inl _ _ _ _ hstep] at hrun
        have hdm : dayMatches s t = true := by
          cases hb : dayMatches s t
          · exact absurd hb hg
          · rfl
        exact ih ⟨.hour, added, t⟩ r ⟨hV, hyok, hmb, hdm⟩ hrun
    | hour =>
      have hinv2 : t.Valid ∧ dateVerified s yl t := hinv
      obtain ⟨hV, hdv⟩ := hinv2
      by_cases hg : (s.Hour.testBit t.hour = false)
      · have hV1 : (if added = false then goDate t.year t.month t.day t.hour 0 else t).Valid := by
          split
          · exact valid_goDate _ _ _ _ _ hV.1 hV.2.1 hV.2.2.1 hV.2.2.2.1 hV.2.2.2.2.1
              (by norm_num)
          · exact hV
        have hT1f : (if added = false then goDate t.year t.month t.day t.hour 0 else t).year =
              t.year ∧
            (if added = false then goDate t.year t.month t.day t.hour 0 else t).month =
              t.month ∧
            (if added = false then goDate t.year t.month t.day t.hour 0 else t).day = t.day := by
          split <;> exact ⟨rfl, rfl, rfl⟩
        by_cases hzero :
            ((add1Hour (if added = false then goDate t.year t.month t.day t.hour 0 else t)).hour = 0)
        · have hstep : nextStep s yl ⟨.hour, added, t⟩ =
              .inl ⟨.wrap, true,
                add1Hour (if added = false then goDate t.year t.month t.day t.hour 0 else t)⟩ := by
            simp only [nextStep]
            rw [if_pos hg, if_pos hzero]
          rw [runSearch_succ_inl _ _ _ _ hstep] at hrun
          exact ih ⟨NextPhase.wrap, true, add1Hour (if added = false then goDate t.year t.month t.day t.hour 0 else t)⟩ r
            ⟨valid_add1Hour _ hV1, fun _ hne => absurd hzero hne⟩ hrun
        · have hstep : nextStep s yl ⟨.hour, added, t⟩ =
              .inl ⟨.hour, true,
                add1Hour (if added = false then goDate t.year t.month t.day t.hour 0 else t)⟩ := by
            simp only [nextStep]
            rw [if_pos hg, if_neg hzero]
          rw [runSearch_succ_inl _ _ _ _ hstep] at hrun
          by_cases hlt :
              ((if added = false then goDate t.year t.month t.day t.hour 0 else t).hour < 23)
          · have heq : add1Hour (if added = false then goDate t.year t.month t.day t.hour 0 else t) =
                { (if added = false then goDate t.year t.month t.day t.hour 0 else t) with
                  hour := (if added = false then goDate t.year t.month t.day t.hour 0 else t).hour
                    + 1 } := by
              unfold add1Hour
              rw [if_pos hlt]
            have hfy : (add1Hour
                (if added = false then goDate t.year t.month t.day t.hour 0 else t)).year =
                t.year := by
              rw [heq]
              exact hT1f.1
            have hfm : (add1Hour
                (if added = false then goDate t.year t.month t.day t.hour 0 else t)).month =
                t.month := by
              rw [heq]
              exact hT1f.2.1
            have hfd : (add1Hour
                (if added = false then goDate t.year t.month t.day t.hour 0 else t)).day =
                t.day := by
              rw [heq]
              exact hT1f.2.2
            exact ih ⟨NextPhase.hour, true, add1Hour (if added = false then goDate t.year t.month t.day t.hour 0 else t)⟩ r
              ⟨valid_add1Hour _ hV1,
                dateVerified_congr s yl t _ hfy.symm hfm.symm hfd.symm hdv⟩ hrun
          · exfalso
            apply hzero
            unfold add1Hour
            rw [if_neg hlt]
      · have hstep : nextStep s yl ⟨.hour, added, t⟩ = .inl ⟨.minute, added, t⟩ := by
          simp only [nextStep]
          rw [if_neg hg]
        rw [runSearch_succ_inl _ _ _ _ hstep] at hrun
        have hhb : s.Hour.testBit t.hour = true := by
          cases hb : s.Hour.testBit t.hour
          · exact absurd hb hg
          · rfl
        exact ih ⟨.minute, added, t⟩ r ⟨hV, hdv, hhb⟩ hrun
    | minute =>
      have hinv2 : t.Valid ∧ (dateVerified s yl t ∧ s.Hour.testBit t.hour = true) := hinv
      obtain ⟨hV, hdv, hhb⟩ := hinv2
      by_cases hg : (s.Minute.testBit t.minute = false)
      · have hV1 : (if added = false then { t with second := 0, nsec := 0 } else t).Valid := by
          split
          · exact valid_trunc_sec t hV
          · exact hV
        have hT1f : (if added = false then { t with second := 0, nsec := 0 } else t).year =
              t.year ∧
            (if added = false then { t with second := 0, nsec := 0 } else t).month = t.month ∧
            (if added = false then { t with second := 0, nsec := 0 } else t).day = t.day ∧
            (if added = false then { t with second := 0, nsec := 0 } else t).hour = t.hour ∧
            (if added = false then { t with second := 0, nsec := 0 } else t).minute =
              t.minute := by
          split <;> exact ⟨rfl, rfl, rfl, rfl, rfl⟩
        by_cases hzero :
            ((add1Minute (if added = false then { t with second := 0, nsec := 0 } else t)).minute
              = 0)
        · have hstep : nextStep s yl ⟨.minute, added, t⟩ =
              .inl ⟨.wrap, true,
                add1Minute (if added = false then { t with second := 0, nsec := 0 } else t)⟩ := by
            simp only [nextStep]
            rw [if_pos hg, if_pos hzero]
          rw [runSearch_succ_inl _ _ _ _ hstep] at hrun
          refine ih ⟨NextPhase.wrap, true, add1Minute (if added = false then { t with second := 0, nsec := 0 } else t)⟩ r
            ⟨valid_add1Minute _ hV1, ?_⟩ hrun
          intro _ hne
          by_cases hlt :
              ((if added = false then { t with second := 0, nsec := 0 } else t).minute < 59)
          · exfalso
            unfold add1Minute at hzero
            rw [if_pos hlt] at hzero
            have h2 : (if added = false then { t with second := 0, nsec := 0 } else t).minute
                + 1 = 0 := hzero
            omega
          · have heq : add1Minute (if added = false then { t with second := 0, nsec := 0 } else t)
                = { add1Hour (if added = false then { t with second := 0, nsec := 0 } else t) with
                    minute := 0 } := by
              unfold add1Minute
              rw [if_neg hlt]
            by_cases hlt2 :
                ((if added = false then { t with second := 0, nsec := 0 } else t).hour < 23)
            · have heq2 : add1Hour
                  (if added = false then { t with second := 0, nsec := 0 } else t) =
                  { (if added = false then { t with second := 0, nsec := 0 } else t) with
                    hour := (if added = false then { t with second := 0, nsec := 0 } else t).hour
                      + 1 } := by
                unfold add1Hour
                rw [if_pos hlt2]
              have hfy : (add1Minute
                  (if added = false then { t with second := 0, nsec := 0 } else t)).year =
                  t.year := by
                rw [heq, heq2]
                exact hT1f.1
              have hfm : (add1Minute
                  (if added = false then { t with second := 0, nsec := 0 } else t)).month =
                  t.month := by
                rw [heq, heq2]
                exact hT1f.2.1
              have hfd : (add1Minute
                  (if added = false then { t with second := 0, nsec := 0 } else t)).day =
                  t.day := by
                rw [heq, heq2]
                exact hT1f.2.2.1
              exact dateVerified_congr s yl t _ hfy.symm hfm.symm hfd.symm hdv
            · exfalso
              apply hne
              have heq2 : add1Hour
                  (if added = false then { t with second := 0, nsec := 0 } else t) =
                  { addDate1D (if added = false then { t with second := 0, nsec := 0 } else t)
                    with hour := 0 } := by
                unfold add1Hour
                rw [if_neg hlt2]
              rw [heq, heq2]
        · have hstep : nextStep s yl ⟨.minute, added, t⟩ =
              .inl ⟨.minute, true,
                add1Minute (if added = false then { t with second := 0, nsec := 0 } else t)⟩ := by
            simp only [nextStep]
            rw [if_pos hg, if_neg hzero]
          rw [runSearch_succ_inl _ _ _ _ hstep] at hrun
          by_cases hlt :
              ((if added = false then { t with second := 0, nsec := 0 } else t).minute < 59)
          · have heq : add1Minute (if added = false then { t with second := 0, nsec := 0 } else t)
                = { (if added = false then { t with second := 0, nsec := 0 } else t) with
                    minute := (if added = false then { t with second := 0, nsec := 0 } else t).minute
                      + 1 } := by
              unfold add1Minute
              rw [if_pos hlt]
            have hfy : (add1Minute
                (if added = false then { t with second := 0, nsec := 0 } else t)).year =
                t.year := by
              rw [heq]
              exact hT1f.1
            have hfm : (add1Minute
                (if added = false then { t with second := 0, nsec := 0 } else t)).month =
                t.month := by
              rw [heq]
              exact hT1f.2.1
            have hfd : (add1Minute
                (if added = false then { t with second := 0, nsec := 0 } else t)).day =
                t.day := by
              rw [heq]
              exact hT1f.2.2.1
            have hfh : (add1Minute
                (if added = false then { t with second := 0, nsec := 0 } else t)).hour =
                t.hour := by
              rw [heq]
              exact hT1f.2.2.2.1
            refine ih ⟨NextPhase.minute, true, add1Minute (if added = false then { t with second := 0, nsec := 0 } else t)⟩ r
              ⟨valid_add1Minute _ hV1,
                dateVerified_congr s yl t _ hfy.symm hfm.symm hfd.symm hdv, ?_⟩ hrun
            rw [hfh]
            exact hhb
          · exfalso
            apply hzero
            unfold add1Minute
            rw [if_neg hlt]
      · have hstep : nextStep s yl ⟨.minute, added, t⟩ = .inl ⟨.second, added, t⟩ := by
          simp only [nextStep]
          rw [if_neg hg]
        rw [runSearch_succ_inl _ _ _ _ hstep] at hrun
        have hminb : s.Minute.testBit t.minute = true := by
          cases hb : s.Minute.testBit t.minute
          · exact absurd hb hg
          · rfl
        exact ih ⟨.second, added, t⟩ r ⟨hV, hdv, hhb, hminb⟩ hrun
    | second =>
      have hinv2 : t.Valid ∧ (dateVerified s yl t ∧ s.Hour.testBit t.hour = true ∧
          s.Minute.testBit t.minute = true) := hinv
      obtain ⟨hV, hdv, hhb, hminb⟩ := hinv2
      by_cases hg : (s.Second.testBit t.second = false)
      · have hV1 : (if added = false then { t with nsec := 0 } else t).Valid := by
          split
          · exact valid_trunc_nsec t hV
          · exact hV
        have hT1f : (if added = false then { t with nsec := 0 } else t).year = t.year ∧
            (if added = false then { t with nsec := 0 } else t).month = t.month ∧
            (if added = false then { t with nsec := 0 } else t).day = t.day ∧
            (if added = false then { t with nsec := 0 } else t).hour = t.hour ∧
            (if added = false then { t with nsec := 0 } else t).minute = t.minute ∧
            (if added = false then { t with nsec := 0 } else t).second = t.second := by
          split <;> exact ⟨rfl, rfl, rfl, rfl, rfl, rfl⟩
        by_cases hzero :
            ((add1Second (if added = false then { t with nsec := 0 } else t)).second = 0)
        · have hstep : nextStep s yl ⟨.second, added, t⟩ =
              .inl ⟨.wrap, true,
                add1Second (if added = false then { t with nsec := 0 } else t)⟩ := by
            simp only [nextStep]
            rw [if_pos hg, if_pos hzero]
          rw [runSearch_succ_inl _ _ _ _ hstep] at hrun
          refine ih ⟨NextPhase.wrap, true, add1Second (if added = false then { t with nsec := 0 } else t)⟩ r
            ⟨valid_add1Second _ hV1, ?_⟩ hrun
          intro _ hne
          by_cases hlt : ((if added = false then { t with nsec := 0 } else t).second < 59)
          · exfalso
            unfold add1Second at hzero
            rw [if_pos hlt] at hzero
            have h2 : (if added = false then { t with nsec := 0 } else t).second + 1 = 0 :=
              hzero
            omega
          · have heq : add1Second (if added = false then { t with nsec := 0 } else t) =
                { add1Minute (if added = false then { t with nsec := 0 } else t) with
                  second := 0 } := by
              unfold add1Second
              rw [if_neg hlt]
            by_cases hlt2 : ((if added = false then { t with nsec := 0 } else t).minute < 59)
            · have heq2 : add1Minute (if added = false then { t with nsec := 0 } else t) =
                  { (if added = false then { t with nsec := 0 } else t) with
                    minute := (if added = false then { t with nsec := 0 } else t).minute + 1 } := by
                unfold add1Minute
                rw [if_pos hlt2]
              have hfy : (add1Second
                  (if added = false then { t with nsec := 0 } else t)).year = t.year := by
                rw [heq, heq2]
                exact hT1f.1
              have hfm : (add1Second
                  (if added = false then { t with nsec := 0 } else t)).month = t.month := by
                rw [heq, heq2]
                exact hT1f.2.1
              have hfd : (add1Second
                  (if added = false then { t with nsec := 0 } else t)).day = t.day := by
                rw [heq, heq2]
                exact hT1f.2.2.1
              exact dateVerified_congr s yl t _ hfy.symm hfm.symm hfd.symm hdv
            · have heq2 : add1Minute (if added = false then { t with nsec := 0 } else t) =
                  { add1Hour (if added = false then { t with nsec := 0 } else t) with
                    minute := 0 } := by
                unfold add1Minute
                rw [if_neg hlt2]
              by_cases hlt3 : ((if added = false then { t with nsec := 0 } else t).hour < 23)
              · have heq3 : add1Hour (if added = false then { t with nsec := 0 } else t) =
                    { (if added = false then { t with nsec := 0 } else t) with
                      hour := (if added = false then { t with nsec := 0 } else t).hour + 1 } := by
                  unfold add1Hour
                  rw [if_pos hlt3]
                have hfy : (add1Second
                    (if added = false then { t with nsec := 0 } else t)).year = t.year := by
                  rw [heq, heq2, heq3]
                  exact hT1f.1
                have hfm : (add1Second
                    (if added = false then { t with nsec := 0 } else t)).month = t.month := by
                  rw [heq, heq2, heq3]
                  exact hT1f.2.1
                have hfd : (add1Second
                    (if added = false then { t with nsec := 0 } else t)).day = t.day := by
                  rw [heq, heq2, heq3]
                  exact hT1f.2.2.1
                exact dateVerified_congr s yl t _ hfy.symm hfm.symm hfd.symm hdv
              · exfalso
                apply hne
                have heq3 : add1Hour (if added = false then { t with nsec := 0 } else t) =
                    { addDate1D (if added = false then { t with nsec := 0 } else t) with
                      hour := 0 } := by
                  unfold add1Hour
                  rw [if_neg hlt3]
                rw [heq, heq2, heq3]
        · have hstep : nextStep s yl ⟨.second, added, t⟩ =
              .inl ⟨.second, true,
                add1Second (if added = false then { t with nsec := 0 } else t)⟩ := by
            simp only [nextStep]
            rw [if_pos hg, if_neg hzero]
          rw [runSearch_succ_inl _ _ _ _ hstep] at hrun
          by_cases hlt : ((if added = false then { t with nsec := 0 } else t).second < 59)
          · have heq : add1Second (if added = false then { t with nsec := 0 } else t) =
                { (if added = false then { t with nsec := 0 } else t) with
                  second := (if added = false then { t with nsec := 0 } else t).second + 1 } := by
              unfold add1Second
              rw [if_pos hlt]
            have hfy : (add1Second
                (if added = false then { t with nsec := 0 } else t)).year = t.year := by
              rw [heq]
              exact hT1f.1
            have hfm : (add1Second
                (if added = false then { t with nsec := 0 } else t)).month = t.month := by
              rw [heq]
              exact hT1f.2.1
            have hfd : (add1Second
                (if added = false then { t with nsec := 0 } else t)).day = t.day := by
              rw [heq]
              exact hT1f.2.2.1
            have hfh : (add1Second
                (if added = false then { t with nsec := 0 } else t)).hour = t.hour := by
              rw [heq]
              exact hT1f.2.2.2.1
            have hfmin : (add1Second
                (if added = false then { t with nsec := 0 } else t)).minute = t.minute := by
              rw [heq]
              exact hT1f.2.2.2.2.1
            refine ih ⟨NextPhase.second, true, add1Second (if added = false then { t with nsec := 0 } else t)⟩ r
              ⟨valid_add1Second _ hV1,
                dateVerified_congr s yl t _ hfy.symm hfm.symm hfd.symm hdv, ?_, ?_⟩ hrun
            · rw [hfh]
              exact hhb
            · rw [hfmin]
              exact hminb
          · exfalso
            apply hzero
            unfold add1Second
            rw [if_neg hlt]
      · have hstep : nextStep s yl ⟨.second, added, t⟩ = .inr (.found t) := by
          simp only [nextStep]
          rw [if_neg hg]
        rw [runSearch_succ_inr _ _ _ _ hstep] at hrun
        injection hrun with hr
        subst hr
        obtain ⟨⟨k1, k2, k3, k4⟩, k5, k6⟩ := hdv
        have hsb : s.Second.testBit t.second = true := by
          cases hb : s.Second.testBit t.second
          · exact absurd hb hg
          · rfl
        exact ⟨hV, ⟨hsb, hminb, hhb, k5, k6, k1, k4⟩, k2, k3⟩

theorem subDate1D_year_le (t : GoTime) : (subDate1D t).year ≤ t.year := by
  unfold subDate1D
  split
  · exact le_refl _
  · split
    · exact le_refl _
    · show t.year - 1 ≤ t.year
      omega

theorem sub1Hour_year_le (t : GoTime) : (sub1Hour t).year ≤ t.year := by
  unfold sub1Hour
  split
  · exact le_refl _
  · exact subDate1D_year_le t

theorem sub1Minute_year_le (t : GoTime) : (sub1Minute t).year ≤ t.year := by
  unfold sub1Minute
  split
  · exact le_refl _
  · exact sub1Hour_year_le t

theorem sub1Second_year_le (t : GoTime) : (sub1Second t).year ≤ t.year := by
  unfold sub1Second
  split
  · exact le_refl _
  · exact sub1Minute_year_le t

theorem nextInit_year_le (t : GoTime) : (nextInit t).year ≤ t.year :=
  sub1Second_year_le { t with nsec := 0 }

/-- C4 holds: a non-sentinel result of `Next` satisfies every field
constraint of the schedule — its second, minute, hour and month bits are
set, `dayMatches` holds for its date, and its year bit is set in the year
mask (with the year at least 1970, where the year mask is anchored). -/
theorem C4_next_result_matches_all (s : SpecSchedule) (t r : GoTime) (hV : t.Valid)
    (h : nextGo s t = .found r) : matchesAll s r := by
  have hV1 : (nextInit t).Valid := valid_sub1Second _ (valid_trunc_nsec t hV)
  have hs := nextSound s ((nextInit t).year + 5) FUEL ⟨.wrap, false, nextInit t⟩ r
    ⟨hV1, by intro hc; simp at hc⟩ h
  exact hs.2.1

theorem C4_next_result_matches_all_witness :
    matchesAll wcSched ⟨2024, 6, 15, 12, 30, 29, 0⟩ :=
  C4_next_result_matches_all wcSched ⟨2024, 6, 15, 12, 30, 30, 0⟩
    ⟨2024, 6, 15, 12, 30, 29, 0⟩ (by decide) (by decide)

/-- C6 holds: every non-sentinel result of `Next` lies within the 5-year
lookahead horizon of the (second-adjusted) input and never beyond the
maximum representable year 2099 — `Next` answers `NO_MATCH` rather than
cross either bound — and for the schedule whose year mask holds only 2030,
`Next` of 2035-01-01T00:00:00 is `NO_MATCH`. -/
theorem C6_next_beyond_horizon_no_match (s : SpecSchedule) (t r : GoTime)
    (hV : t.Valid) (h : nextGo s t = .found r) :
    (r.year ≤ t.year + 5 ∧ r.year ≤ maxYear) ∧
      nextGo y2030Sched ⟨2035, 1, 1, 0, 0, 0, 0⟩ = .noMatch := by
  refine ⟨?_, by decide⟩
  have hV1 : (nextInit t).Valid := valid_sub1Second _ (valid_trunc_nsec t hV)
  have hs := nextSound s ((nextInit t).year + 5) FUEL ⟨.wrap, false, nextInit t⟩ r
    ⟨hV1, by intro hc; simp at hc⟩ h
  have hle := nextInit_year_le t
  obtain ⟨-, -, h1, h2⟩ := hs
  exact ⟨by omega, h2⟩

theorem C6_next_beyond_horizon_no_match_witness :
    (((⟨2024, 6, 15, 12, 30, 29, 0⟩ : GoTime).year ≤
        (⟨2024, 6, 15, 12, 30, 30, 0⟩ : GoTime).year + 5 ∧
      (⟨2024, 6, 15, 12, 30, 29, 0⟩ : GoTime).year ≤ maxYear) ∧
      nextGo y2030Sched ⟨2035, 1, 1, 0, 0, 0, 0⟩ = .noMatch) :=
  C6_next_beyond_horizon_no_match wcSched ⟨2024, 6, 15, 12, 30, 30, 0⟩
    ⟨2024, 6, 15, 12, 30, 29, 0⟩ (by decide) (by decide)

theorem nextStep_wrap_ok (s : SpecSchedule) (yl : Int) (a : Bool) (u : GoTime)
    (h : ¬(u.year > yl ∨ u.year > maxYear)) :
    nextStep s yl ⟨.wrap, a, u⟩ = .inl ⟨.year, a, u⟩ := by
  simp only [nextStep]
  rw [if_neg h]

theorem nextStep_year_skip0 (s : SpecSchedule) (yl : Int) (u : GoTime)
    (hg : u.year < minYear) (h1 : ¬(u.year + 1 > yl ∨ u.year + 1 > maxYear)) :
    nextStep s yl ⟨.year, false, u⟩ =
      .inl ⟨.year, true, ⟨u.year + 1, 1, 1, 0, 0, 0, 0⟩⟩ := by
  have hA : addDate1Y (goDate u.year 1 1 0 0) = ⟨u.year + 1, 1, 1, 0, 0, 0, 0⟩ := by
    unfold addDate1Y goDate
    rw [if_pos (by rw [daysIn_one]; norm_num)]
  simp only [nextStep]
  rw [if_pos (Or.inl hg), if_pos trivial, hA, if_neg h1]

theorem nextStep_year_skip (s : SpecSchedule) (yl y : Int) (a : Bool)
    (hg : y < minYear) (h1 : ¬(y + 1 > yl ∨ y + 1 > maxYear)) :
    nextStep s yl ⟨.year, a, ⟨y, 1, 1, 0, 0, 0, 0⟩⟩ =
      .inl ⟨.year, true, ⟨y + 1, 1, 1, 0, 0, 0, 0⟩⟩ := by
  have hA : addDate1Y (⟨y, 1, 1, 0, 0, 0, 0⟩ : GoTime) = ⟨y + 1, 1, 1, 0, 0, 0, 0⟩ := by
    unfold addDate1Y
    rw [if_pos (by rw [daysIn_one]; norm_num)]
  simp only [nextStep, goDate, ite_self]
  rw [if_pos (Or.inl hg), hA, if_neg h1]

theorem nextStep_year_stop (s : SpecSchedule) (yl y : Int) (a : Bool)
    (hg : y < minYear) (h1 : y + 1 > yl ∨ y + 1 > maxYear) :
    nextStep s yl ⟨.year, a, ⟨y, 1, 1, 0, 0, 0, 0⟩⟩ = .inr .noMatch := by
  have hA : addDate1Y (⟨y, 1, 1, 0, 0, 0, 0⟩ : GoTime) = ⟨y + 1, 1, 1, 0, 0, 0, 0⟩ := by
    unfold addDate1Y
    rw [if_pos (by rw [daysIn_one]; norm_num)]
  simp only [nextStep, goDate, ite_self]
  rw [if_pos (Or.inl hg), hA, if_pos h1]

/-- C10 holds: for every schedule, `Next` answers `NO_MATCH` on any input
whose year is at most 1964, because the lookahead limit is anchored at the
input year plus five, which stays below 1970 — the first year the year
loop could ever accept — so the year loop walks to the limit and gives
up, even if the schedule matches instants inside [1970, 2099]. -/
theorem C10_next_no_match_before_1965 (s : SpecSchedule) (t : GoTime)
    (hy : t.year ≤ 1964) : nextGo s t = .noMatch := by
  have hle := nextInit_year_le t
  have hu : (nextInit t).year ≤ 1964 := le_trans hle hy
  show runSearch (nextStep s ((nextInit t).year + 5)) FUEL
    ⟨.wrap, false, nextInit t⟩ = .noMatch
  rw [show (FUEL : Nat) = 1999999999 + 1 from rfl,
    runSearch_succ_inl _ _ _ _ (nextStep_wrap_ok s _ false (nextInit t)
      (by simp only [maxYear]; omega))]
  rw [show (1999999999 : Nat) = 1999999998 + 1 from rfl,
    runSearch_succ_inl _ _ _ _ (nextStep_year_skip0 s _ (nextInit t)
      (by simp only [minYear]; omega) (by simp only [maxYear]; omega))]
  rw [show (1999999998 : Nat) = 1999999997 + 1 from rfl,
    runSearch_succ_inl _ _ _ _ (nextStep_year_skip s _ _ true
      (by simp only [minYear]; omega) (by simp only [maxYear]; omega))]
  rw [show (1999999997 : Nat) = 1999999996 + 1 from rfl,
    runSearch_succ_inl _ _ _ _ (nextStep_year_skip s _ _ true
      (by simp only [minYear]; omega) (by simp only [maxYear]; omega))]
  rw [show (1999999996 : Nat) = 1999999995 + 1 from rfl,
    runSearch_succ_inl _ _ _ _ (nextStep_year_skip s _ _ true
      (by simp only [minYear]; omega) (by simp only [maxYear]; omega))]
  rw [show (1999999995 : Nat) = 1999999994 + 1 from rfl,
    runSearch_succ_inl _ _ _ _ (nextStep_year_skip s _ _ true
      (by simp only [minYear]; omega) (by simp only [maxYear]; omega))]
  rw [show (1999999994 : Nat) = 1999999993 + 1 from rfl,
    runSearch_succ_inr _ _ _ _ (nextStep_year_stop s _ _ true
      (by simp only [minYear]; omega) (by simp only [maxYear]; omega))]

theorem C10_next_no_match_before_1965_witness :
    nextGo wcSched ⟨1960, 1, 1, 0, 0, 0, 0⟩ = .noMatch :=
  C10_next_no_match_before_1965 wcSched ⟨1960, 1, 1, 0, 0, 0, 0⟩ (by decide)

/-- C9 holds: an input that already satisfies every field constraint of
the schedule is returned unchanged by `Prev` — the line that would round
the cursor away from the input is commented out in the source (line 228),
so every loop falls straight through and the second loop returns the
untouched cursor. -/
theorem C9_prev_returns_matching_input (s : SpecSchedule) (t : GoTime)
    (hm : matchesAll s t) : prevGo s t = .found t := by
  obtain ⟨h1, h2, h3, h4, h5, h6, h7⟩ := hm
  have s1 : prevStep s (t.year - 5) ⟨.wrap, false, false, false, false, false, false, t⟩ =
      .inl ⟨.year, false, false, false, false, false, false, t⟩ := by
    simp only [prevStep]
    rw [if_neg (by omega)]
  have s2 : prevStep s (t.year - 5) ⟨.year, false, false, false, false, false, false, t⟩ =
      .inl ⟨.month, false, false, false, false, false, false, t⟩ := by
    simp only [prevStep]
    rw [if_neg (by
        rintro (hc | hc)
        · omega
        · rw [h7] at hc
          exact Bool.noConfusion hc),
      if_neg (by simp : ¬((false : Bool) = true))]
  have s3 : prevStep s (t.year - 5) ⟨.month, false, false, false, false, false, false, t⟩ =
      .inl ⟨.day, false, false, false, false, false, false, t⟩ := by
    simp only [prevStep]
    rw [if_neg (by simp [h4]), if_neg (by simp : ¬((false : Bool) = true))]
  have s4 : prevStep s (t.year - 5) ⟨.day, false, false, false, false, false, false, t⟩ =
      .inl ⟨.hour, false, false, false, false, false, false, t⟩ := by
    simp only [prevStep]
    rw [if_neg (by simp [h5]), if_neg (by simp : ¬((false : Bool) = true))]
  have s5 : prevStep s (t.year - 5) ⟨.hour, false, false, false, false, false, false, t⟩ =
      .inl ⟨.minute, false, false, false, false, false, false, t⟩ := by
    simp only [prevStep]
    rw [if_neg (by simp [h3]), if_neg (by simp : ¬((false : Bool) = true))]
  have s6 : prevStep s (t.year - 5) ⟨.minute, false, false, false, false, false, false, t⟩ =
      .inl ⟨.second, false, false, false, false, false, false, t⟩ := by
    simp only [prevStep]
    rw [if_neg (by simp [h2]), if_neg (by simp : ¬((false : Bool) = true))]
  have s7 : prevStep s (t.year - 5) ⟨.second, false, false, false, false, false, false, t⟩ =
      .inr (.found t) := by
    simp only [prevStep]
    rw [if_neg (by simp [h1])]
  show runSearch (prevStep s (t.year - 5)) FUEL
    ⟨.wrap, false, false, false, false, false, false, t⟩ = .found t
  rw [show (FUEL : Nat) = 1999999999 + 1 from rfl, runSearch_succ_inl _ _ _ _ s1,
    show (1999999999 : Nat) = 1999999998 + 1 from rfl, runSearch_succ_inl _ _ _ _ s2,
    show (1999999998 : Nat) = 1999999997 + 1 from rfl, runSearch_succ_inl _ _ _ _ s3,
    show (1999999997 : Nat) = 1999999996 + 1 from rfl, runSearch_succ_inl _ _ _ _ s4,
    show (1999999996 : Nat) = 1999999995 + 1 from rfl, runSearch_succ_inl _ _ _ _ s5,
    show (1999999995 : Nat) = 1999999994 + 1 from rfl, runSearch_succ_inl _ _ _ _ s6,
    show (1999999994 : Nat) = 1999999993 + 1 from rfl, runSearch_succ_inr _ _ _ _ s7]

theorem C9_prev_returns_matching_input_witness :
    prevGo wcSched ⟨2024, 6, 15, 12, 30, 30, 0⟩ = .found ⟨2024, 6, 15, 12, 30, 30, 0⟩ :=
  C9_prev_returns_matching_input wcSched ⟨2024, 6, 15, 12, 30, 30, 0⟩ (by decide)
